import Mathlib

/-!
Verification development for the Derivatives-Pricing-Library repository.

The C++ sources are shallowly embedded: machine doubles are modelled as exact
rationals (and, for the Asian-average claim, as real numbers); the transcendental
library functions `std::exp` / `std::sqrt` / `std::pow(·, 1/n)` are passed as
explicit function parameters (`Ex`, `Sq`, `rootn`) so that every definition stays
executable and can be evaluated on concrete inputs; `throw` is modelled with
`Except`; the mutable random-generator cursor is modelled by explicit cursor
passing over an abstract draw stream `ℕ → ℚ`.
-/

namespace DerivPricing

/-- Option type enumeration (include/derivatives/core/types.hpp). -/
inductive OptionType
  | CALL
  | PUT
deriving DecidableEq, Repr

/-- Option style enumeration (include/derivatives/core/types.hpp). -/
inductive OptionStyle
  | EUROPEAN
  | AMERICAN
  | BERMUDAN
deriving DecidableEq, Repr

/-- Barrier type enumeration (include/derivatives/core/types.hpp). -/
inductive BarrierType
  | UP_AND_IN
  | UP_AND_OUT
  | DOWN_AND_IN
  | DOWN_AND_OUT
deriving DecidableEq, Repr

/-- Averaging type enumeration for Asian options (include/derivatives/core/types.hpp). -/
inductive AveragingType
  | ARITHMETIC
  | GEOMETRIC
deriving DecidableEq, Repr

/-- MarketData value object (src/unnamed/part_005): spot, rate, volatility, dividend.
Doubles are modelled as exact rationals. -/
structure MarketData where
  spot : ℚ
  rate : ℚ
  volatility : ℚ
  dividend : ℚ
deriving DecidableEq, Repr

/-- The product hierarchy (Option base class in src/unnamed/part_006 and the derived
products in include/derivatives/products/) is modelled as a product-kind tag. -/
inductive OptionKind
  | vanilla
  | asian (avgType : AveragingType) (numObservations : ℕ)
  | barrier (btype : BarrierType) (level : ℚ) (rebate : ℚ)
  | digital (payout : ℚ)
deriving DecidableEq, Repr

/-- An option value object: the base-class fields (strike, expiry, type, style) plus the
derived-product data selected by `kind`. -/
structure OptionData where
  strike : ℚ
  expiry : ℚ
  type : OptionType
  style : OptionStyle
  kind : OptionKind
deriving DecidableEq, Repr

/-- Option::payoff of the base class (src/unnamed/part_006):
max(spot - strike, 0) for a call, max(strike - spot, 0) for a put. -/
def OptionData.base_payoff (o : OptionData) (spot : ℚ) : ℚ :=
  match o.type with
  | OptionType.CALL => max (spot - o.strike) 0
  | OptionType.PUT => max (o.strike - spot) 0

/-- The virtual payoff dispatch: DigitalOption overrides payoff
(include/derivatives/products/asian_option.hpp, digital section); AsianOption's override
applies the base formula to its (average) argument; BarrierOption inherits the base payoff. -/
def OptionData.payoff (o : OptionData) (s : ℚ) : ℚ :=
  match o.kind with
  | OptionKind.digital payout =>
      let in_the_money : Bool :=
        match o.type with
        | OptionType.CALL => decide (o.strike < s)
        | OptionType.PUT => decide (s < o.strike)
      if in_the_money then payout else 0
  | _ => o.base_payoff s

namespace BinomialTreeModel

/-- TreeParams struct (include/derivatives/models/binomial_tree.hpp). -/
structure TreeParams where
  u : ℚ
  d : ℚ
  p : ℚ
  dt : ℚ
  df : ℚ
deriving DecidableEq, Repr

/-- BinomialTreeModel::calculate_parameters (src/src/models/binomial_tree.cpp:7-31).
`Ex` and `Sq` stand for std::exp and std::sqrt. Throws are modelled with `Except`. -/
def calculate_parameters (Ex Sq : ℚ → ℚ) (num_steps : ℕ) (m : MarketData) (T : ℚ) :
    Except String TreeParams :=
  let dt := T / (num_steps : ℚ)
  let sigma := m.volatility
  let r := m.rate
  let q := m.dividend
  let u := Ex (sigma * Sq dt)
  let d := 1 / u
  let df := Ex (-(r * dt))
  let growth_factor := Ex ((r - q) * dt)
  let p := (growth_factor - d) / (u - d)
  if p < 0 ∨ p > 1 then Except.error "Invalid binomial tree parameters"
  else Except.ok ⟨u, d, p, dt, df⟩

/-- Terminal layer of option values (binomial_tree.cpp:50-53 and 73-76):
values[i] = payoff(S * u^(N-i) * d^i). -/
def terminal_values (o : OptionData) (S : ℚ) (tp : TreeParams) (N : ℕ) : List ℚ :=
  (List.range (N + 1)).map fun i => o.payoff (S * tp.u ^ (N - i) * tp.d ^ i)

/-- One backward-induction pass of price_european (binomial_tree.cpp:56-60).
The inner loop reads only pre-pass entries (values[i] is read before it is written,
values[i+1] is written after iteration i), so the pass is a map over the old layer. -/
def euro_step (tp : TreeParams) (step : ℕ) (values : List ℚ) : List ℚ :=
  (List.range (step + 1)).map fun i =>
    tp.df * (tp.p * values.getD i 0 + (1 - tp.p) * values.getD (i + 1) 0)

/-- One backward-induction pass of price_american (binomial_tree.cpp:79-93):
values[i] = max(df*(p*values[i] + (1-p)*values[i+1]), payoff(S*u^(step-i)*d^i)). -/
def amer_step (o : OptionData) (S : ℚ) (tp : TreeParams) (step : ℕ) (values : List ℚ) :
    List ℚ :=
  (List.range (step + 1)).map fun i =>
    let S_node := S * tp.u ^ (step - i) * tp.d ^ i
    let continuation := tp.df * (tp.p * values.getD i 0 + (1 - tp.p) * values.getD (i + 1) 0)
    let exercise := o.payoff S_node
    max continuation exercise

/-- The layer held in `values` after `k` backward passes of price_american
(pass number k handles step = N - k). -/
def amer_layer (o : OptionData) (S : ℚ) (tp : TreeParams) (N : ℕ) : ℕ → List ℚ
  | 0 => terminal_values o S tp N
  | k + 1 => amer_step o S tp (N - (k + 1)) (amer_layer o S tp N k)

/-- The layer held in `values` after `k` backward passes of price_european. -/
def euro_layer (o : OptionData) (S : ℚ) (tp : TreeParams) (N : ℕ) : ℕ → List ℚ
  | 0 => terminal_values o S tp N
  | k + 1 => euro_step tp (N - (k + 1)) (euro_layer o S tp N k)

/-- BinomialTreeModel::price_american (binomial_tree.cpp:65-96): run all N passes
and return values[0]. -/
def price_american (o : OptionData) (S : ℚ) (tp : TreeParams) (N : ℕ) : ℚ :=
  (amer_layer o S tp N N).getD 0 0

/-- BinomialTreeModel::price_european (binomial_tree.cpp:43-63). -/
def price_european (o : OptionData) (S : ℚ) (tp : TreeParams) (N : ℕ) : ℚ :=
  (euro_layer o S tp N N).getD 0 0

/-- BinomialTreeModel::price (binomial_tree.cpp:33-41): compute parameters (which can
fail), then dispatch on the option style. -/
def price (Ex Sq : ℚ → ℚ) (num_steps : ℕ) (o : OptionData) (m : MarketData) :
    Except String ℚ :=
  (calculate_parameters Ex Sq num_steps m o.expiry).map fun tp =>
    if o.style = OptionStyle.AMERICAN then price_american o m.spot tp num_steps
    else price_european o m.spot tp num_steps

/-- Reference value function for American backward induction, written directly from the
spec's description: terminal nodes carry the payoff; every interior node is the max of the
discounted expected continuation value and the immediate exercise payoff at that node's
spot. -/
def amer_node (o : OptionData) (S : ℚ) (tp : TreeParams) (N : ℕ) (step i : ℕ) : ℚ :=
  if N ≤ step then o.payoff (S * tp.u ^ (N - i) * tp.d ^ i)
  else
    max (tp.df * (tp.p * amer_node o S tp N (step + 1) i +
          (1 - tp.p) * amer_node o S tp N (step + 1) (i + 1)))
        (o.payoff (S * tp.u ^ (step - i) * tp.d ^ i))
termination_by N - step
decreasing_by all_goals (simp_wf; omega)

end BinomialTreeModel

/-- Looking up index `i < n` in a map over `List.range n`. -/
lemma getD_range_map (f : ℕ → ℚ) (n i : ℕ) (h : i < n) :
    ((List.range n).map f).getD i 0 = f i := by
  rw [List.getD_eq_getElem?_getD, List.getElem?_map, List.getElem?_range h]
  rfl

namespace BinomialTreeModel

/-- After `k` backward passes of price_american, entry `i` of the working array equals the
reference backward-induction node value at (step = N - k, i). -/
lemma amer_layer_getD (o : OptionData) (S : ℚ) (tp : TreeParams) (N : ℕ) :
    ∀ k, k ≤ N → ∀ i, i ≤ N - k →
      (amer_layer o S tp N k).getD i 0 = amer_node o S tp N (N - k) i := by
  intro k
  induction k with
  | zero =>
    intro _ i hi
    show (terminal_values o S tp N).getD i 0 = _
    unfold terminal_values
    rw [getD_range_map _ _ _ (by omega), amer_node, if_pos (by omega)]
  | succ k ih =>
    intro hk i hi
    show (amer_step o S tp (N - (k + 1)) (amer_layer o S tp N k)).getD i 0 = _
    unfold amer_step
    rw [getD_range_map _ _ _ (by omega)]
    conv_rhs => rw [amer_node]
    rw [if_neg (by omega : ¬ N ≤ N - (k + 1))]
    have h2 : N - (k + 1) + 1 = N - k := by omega
    rw [h2]
    rw [ih (by omega) i (by omega), ih (by omega) (i + 1) (by omega)]

end BinomialTreeModel

namespace TrinomialTreeModel

/-- The value of the size_t expression `i - num_steps_` (binomial_tree.cpp:138):
unsigned subtraction modulo 2^64, which wraps to a huge value when `i < N`. -/
def wrapSub (i N : ℕ) : ℕ := (i + 2 ^ 64 - N) % 2 ^ 64

/-- The update written to `values[i]` during the trinomial backward loop
(binomial_tree.cpp:137-147). The read of `values[i-1]` sees whatever currently sits in
the working array — for `i > start` that entry was already overwritten earlier in the
same pass. The node spot uses the wrapped `i - num_steps_`. -/
def tri_update (o : OptionData) (S dx pu pm pd df : ℚ) (Ex : ℚ → ℚ) (N : ℕ)
    (vals : List ℚ) (i : ℕ) : ℚ :=
  let S_node := S * Ex ((wrapSub i N : ℚ) * dx)
  let continuation := df * (pu * vals.getD (i + 1) 0 + pm * vals.getD i 0 +
    pd * vals.getD (i - 1) 0)
  if o.style = OptionStyle.AMERICAN then max continuation (o.payoff S_node)
  else continuation

/-- The inner trinomial loop (binomial_tree.cpp:137-148) with `r` iterations remaining
and `i` the current index: sequentially set `values[i]`, each update reading the
partially-updated array. -/
def tri_pass_loop (o : OptionData) (S dx pu pm pd df : ℚ) (Ex : ℚ → ℚ) (N : ℕ) :
    ℕ → ℕ → List ℚ → List ℚ
  | 0, _, vals => vals
  | r + 1, i, vals =>
      tri_pass_loop o S dx pu pm pd df Ex N r (i + 1)
        (vals.set i (tri_update o S dx pu pm pd df Ex N vals i))

/-- One in-place pass of the trinomial backward loop at layer `step`
(binomial_tree.cpp:133-149): i runs from start = N - step to end = N + step. -/
def tri_pass (o : OptionData) (S dx pu pm pd df : ℚ) (Ex : ℚ → ℚ) (N step : ℕ)
    (vals : List ℚ) : List ℚ :=
  tri_pass_loop o S dx pu pm pd df Ex N (2 * step + 1) (N - step) vals

/-- Working array after `k` backward passes of TrinomialTreeModel::price; layer 0 is the
terminal initialization (binomial_tree.cpp:126-130), where `int j = i - num_steps_`
recovers the signed index. -/
def tri_layer (o : OptionData) (S dx pu pm pd df : ℚ) (Ex : ℚ → ℚ) (N : ℕ) :
    ℕ → List ℚ
  | 0 => (List.range (2 * N + 1)).map fun i => o.payoff (S * Ex (((i : ℤ) - (N : ℤ)) * dx))
  | k + 1 => tri_pass o S dx pu pm pd df Ex N (N - (k + 1))
      (tri_layer o S dx pu pm pd df Ex N k)

/-- TrinomialTreeModel::price (binomial_tree.cpp:103-152). `Ex`/`Sq` stand for
std::exp/std::sqrt. -/
def price (Ex Sq : ℚ → ℚ) (num_steps : ℕ) (o : OptionData) (m : MarketData) : ℚ :=
  let S := m.spot
  let T := o.expiry
  let r := m.rate
  let q := m.dividend
  let sigma := m.volatility
  let dt := T / (num_steps : ℚ)
  let dx := sigma * Sq (3 * dt)
  let nu := r - q - 0.5 * sigma * sigma
  let pu := 0.5 * ((sigma * sigma * dt + nu * nu * dt * dt) / (dx * dx) + nu * dt / dx)
  let pm := 1 - (sigma * sigma * dt + nu * nu * dt * dt) / (dx * dx)
  let pd := 0.5 * ((sigma * sigma * dt + nu * nu * dt * dt) / (dx * dx) - nu * dt / dx)
  let df := Ex (-(r * dt))
  (tri_layer o S dx pu pm pd df Ex num_steps num_steps).getD num_steps 0

/-- Reference per-node value of trinomial backward induction, written from the spec's
words: terminal nodes carry the payoff at spot S·exp(j·dx); an interior node discounts
the probability-weighted values of its three successors in the NEXT layer, and for
American style takes the max with the immediate exercise payoff at that node's spot. -/
def tri_node_ref (o : OptionData) (S dx pu pm pd df : ℚ) (Ex : ℚ → ℚ) (N : ℕ) :
    (step : ℕ) → (j : ℤ) → ℚ
  | step, j =>
    if N ≤ step then o.payoff (S * Ex ((j : ℚ) * dx))
    else
      let continuation := df *
        (pu * tri_node_ref o S dx pu pm pd df Ex N (step + 1) (j + 1) +
         pm * tri_node_ref o S dx pu pm pd df Ex N (step + 1) j +
         pd * tri_node_ref o S dx pu pm pd df Ex N (step + 1) (j - 1))
      if o.style = OptionStyle.AMERICAN then
        max continuation (o.payoff (S * Ex ((j : ℚ) * dx)))
      else continuation
termination_by step _ => N - step
decreasing_by all_goals (simp_wf; omega)

/-- The root value mandated by the spec's backward induction for the trinomial tree. -/
def price_ref (Ex Sq : ℚ → ℚ) (num_steps : ℕ) (o : OptionData) (m : MarketData) : ℚ :=
  let S := m.spot
  let dt := o.expiry / (num_steps : ℚ)
  let dx := m.volatility * Sq (3 * dt)
  let nu := m.rate - m.dividend - 0.5 * m.volatility * m.volatility
  let pu := 0.5 * ((m.volatility * m.volatility * dt + nu * nu * dt * dt) / (dx * dx) +
    nu * dt / dx)
  let pm := 1 - (m.volatility * m.volatility * dt + nu * nu * dt * dt) / (dx * dx)
  let pd := 0.5 * ((m.volatility * m.volatility * dt + nu * nu * dt * dt) / (dx * dx) -
    nu * dt / dx)
  let df := Ex (-(m.rate * dt))
  tri_node_ref o S dx pu pm pd df Ex num_steps 0 0

end TrinomialTreeModel

/-- Concrete exp stand-in used for the trinomial failing input. -/
def triBugExp : ℚ → ℚ := fun x => 1 + x / 8

/-- Concrete sqrt stand-in used for the trinomial failing input (Sq 3 = 2, so dx = 2). -/
def triBugSqrt : ℚ → ℚ := fun _ => 2

/-- Failing-input market data: spot 1, rate 0, volatility 1, dividend 1/2. -/
def triBugMkt : MarketData := ⟨1, 0, 1, 1 / 2⟩

/-- Failing-input option: American vanilla put, strike 3, expiry 2. -/
def triBugOpt : OptionData :=
  ⟨3, 2, OptionType.PUT, OptionStyle.AMERICAN, OptionKind.vanilla⟩

/-- Value of the trinomial working array at the failing input after the terminal
initialization (layer 0): payoffs of the put at spots S·Ex(j·dx), j = -2..2. -/
lemma tri_l0 : TrinomialTreeModel.tri_layer triBugOpt 1 2 0 (1/2) (1/2) 1 triBugExp 2 0
    = [5/2, 9/4, 2, 7/4, 3/2] := by
  rw [TrinomialTreeModel.tri_layer]
  rw [show (2*2+1 : ℕ) = 5 from rfl, show List.range 5 = [0,1,2,3,4] from rfl]
  norm_num [triBugOpt, triBugExp, OptionData.payoff, OptionData.base_payoff]

/-- First update of the step-1 pass: continuation (1/2)·(9/4) + (1/2)·(5/2) = 19/8;
the exercise spot wraps to a huge value, so the put exercise payoff is 0. -/
lemma tri_u1 : TrinomialTreeModel.tri_update triBugOpt 1 2 0 (1/2) (1/2) 1 triBugExp 2
    [5/2, 9/4, 2, 7/4, 3/2] 1 = 19/8 := by
  norm_num [TrinomialTreeModel.tri_update, TrinomialTreeModel.wrapSub, triBugOpt, triBugExp,
    OptionData.payoff, OptionData.base_payoff, List.getD_cons_zero, List.getD_cons_succ]

/-- Second update of the step-1 pass: it reads values[1] = 19/8, which the SAME pass has
already overwritten (the pre-pass value was 9/4), giving 35/16 instead of 17/8. -/
lemma tri_u2 : TrinomialTreeModel.tri_update triBugOpt 1 2 0 (1/2) (1/2) 1 triBugExp 2
    [5/2, 19/8, 2, 7/4, 3/2] 2 = 35/16 := by
  norm_num [TrinomialTreeModel.tri_update, TrinomialTreeModel.wrapSub, triBugOpt, triBugExp,
    OptionData.payoff, OptionData.base_payoff, List.getD_cons_zero, List.getD_cons_succ]

/-- Third update of the step-1 pass, again reading an already-overwritten neighbour. -/
lemma tri_u3 : TrinomialTreeModel.tri_update triBugOpt 1 2 0 (1/2) (1/2) 1 triBugExp 2
    [5/2, 19/8, 35/16, 7/4, 3/2] 3 = 63/32 := by
  norm_num [TrinomialTreeModel.tri_update, TrinomialTreeModel.wrapSub, triBugOpt, triBugExp,
    OptionData.payoff, OptionData.base_payoff, List.getD_cons_zero, List.getD_cons_succ]

/-- The single update of the step-0 pass (the root). -/
lemma tri_u4 : TrinomialTreeModel.tri_update triBugOpt 1 2 0 (1/2) (1/2) 1 triBugExp 2
    [5/2, 19/8, 35/16, 63/32, 3/2] 2 = 73/32 := by
  norm_num [TrinomialTreeModel.tri_update, TrinomialTreeModel.wrapSub, triBugOpt, triBugExp,
    OptionData.payoff, OptionData.base_payoff, List.getD_cons_zero, List.getD_cons_succ]

/-- The complete step-1 pass at the failing input. -/
lemma tri_p1 : TrinomialTreeModel.tri_pass_loop triBugOpt 1 2 0 (1/2) (1/2) 1 triBugExp 2
    3 1 [5/2, 9/4, 2, 7/4, 3/2] = [5/2, 19/8, 35/16, 63/32, 3/2] := by
  simp only [TrinomialTreeModel.tri_pass_loop]
  rw [tri_u1]
  rw [show List.set [5/2, 9/4, 2, 7/4, (3/2 : ℚ)] 1 (19/8) = [5/2, 19/8, 2, 7/4, 3/2] from rfl]
  rw [tri_u2]
  rw [show List.set [5/2, 19/8, 2, 7/4, (3/2 : ℚ)] 2 (35/16)
      = [5/2, 19/8, 35/16, 7/4, 3/2] from rfl]
  rw [tri_u3]
  rw [show List.set [5/2, 19/8, 35/16, 7/4, (3/2 : ℚ)] 3 (63/32)
      = [5/2, 19/8, 35/16, 63/32, 3/2] from rfl]

/-- The working array after one backward pass at the failing input. -/
lemma tri_l1 : TrinomialTreeModel.tri_layer triBugOpt 1 2 0 (1/2) (1/2) 1 triBugExp 2 1
    = [5/2, 19/8, 35/16, 63/32, 3/2] := by
  rw [show (1:ℕ) = 0 + 1 from rfl, TrinomialTreeModel.tri_layer, tri_l0,
    TrinomialTreeModel.tri_pass]
  norm_num
  exact tri_p1

/-- The complete step-0 pass at the failing input. -/
lemma tri_p0 : TrinomialTreeModel.tri_pass_loop triBugOpt 1 2 0 (1/2) (1/2) 1 triBugExp 2
    1 2 [5/2, 19/8, 35/16, 63/32, 3/2] = [5/2, 19/8, 73/32, 63/32, 3/2] := by
  simp only [TrinomialTreeModel.tri_pass_loop]
  rw [tri_u4]
  rw [show List.set [5/2, 19/8, 35/16, 63/32, (3/2 : ℚ)] 2 (73/32)
      = [5/2, 19/8, 73/32, 63/32, 3/2] from rfl]

/-- The working array after both backward passes at the failing input. -/
lemma tri_l2 : TrinomialTreeModel.tri_layer triBugOpt 1 2 0 (1/2) (1/2) 1 triBugExp 2 2
    = [5/2, 19/8, 73/32, 63/32, 3/2] := by
  rw [show (2:ℕ) = 1 + 1 from rfl, TrinomialTreeModel.tri_layer]
  norm_num
  rw [tri_l1, TrinomialTreeModel.tri_pass]
  norm_num
  exact tri_p0

/-- TrinomialTreeModel::price returns 73/32 at the failing input. -/
lemma tri_code_val : TrinomialTreeModel.price triBugExp triBugSqrt 2 triBugOpt triBugMkt
    = 73/32 := by
  rw [TrinomialTreeModel.price]
  norm_num [triBugExp, triBugSqrt, triBugMkt, triBugOpt]
  rw [show (⟨3, 2, OptionType.PUT, OptionStyle.AMERICAN, OptionKind.vanilla⟩ : OptionData)
      = triBugOpt from rfl, tri_l2]
  rfl

/-- The failing-input put payoff in closed form. -/
lemma triBugOpt_payoff (s : ℚ) : triBugOpt.payoff s = max (3 - s) 0 := by
  norm_num [triBugOpt, OptionData.payoff, OptionData.base_payoff]

/-- The failing-input option is American. -/
lemma triBugOpt_style : triBugOpt.style = OptionStyle.AMERICAN := rfl

/-- Terminal nodes of the reference trinomial backward induction. -/
lemma tri_ref_term (j : ℤ) :
    TrinomialTreeModel.tri_node_ref triBugOpt 1 2 0 (1/2) (1/2) 1 triBugExp 2 2 j
    = triBugOpt.payoff (triBugExp (j * 2)) := by
  rw [TrinomialTreeModel.tri_node_ref]
  norm_num

/-- Reference node (step 1, j = -1): max((1/2)(9/4) + (1/2)(5/2), 9/4) = 19/8. -/
lemma tri_ref_1m :
    TrinomialTreeModel.tri_node_ref triBugOpt 1 2 0 (1/2) (1/2) 1 triBugExp 2 1 (-1)
    = 19/8 := by
  rw [TrinomialTreeModel.tri_node_ref]
  norm_num [tri_ref_term, triBugOpt_payoff, triBugOpt_style, triBugExp]

/-- Reference node (step 1, j = 0): max((1/2)(2) + (1/2)(9/4), 2) = 17/8 — this is the
value the code corrupts to 35/16. -/
lemma tri_ref_10 :
    TrinomialTreeModel.tri_node_ref triBugOpt 1 2 0 (1/2) (1/2) 1 triBugExp 2 1 0
    = 17/8 := by
  rw [TrinomialTreeModel.tri_node_ref]
  norm_num [tri_ref_term, triBugOpt_payoff, triBugOpt_style, triBugExp]

/-- Reference node (step 1, j = 1). -/
lemma tri_ref_1p :
    TrinomialTreeModel.tri_node_ref triBugOpt 1 2 0 (1/2) (1/2) 1 triBugExp 2 1 1
    = 15/8 := by
  rw [TrinomialTreeModel.tri_node_ref]
  norm_num [tri_ref_term, triBugOpt_payoff, triBugOpt_style, triBugExp]

/-- Reference root value: max((1/2)(17/8) + (1/2)(19/8), 2) = 9/4. -/
lemma tri_ref_root :
    TrinomialTreeModel.tri_node_ref triBugOpt 1 2 0 (1/2) (1/2) 1 triBugExp 2 0 0
    = 9/4 := by
  rw [TrinomialTreeModel.tri_node_ref]
  norm_num [tri_ref_1m, tri_ref_10, tri_ref_1p, triBugOpt_payoff, triBugOpt_style, triBugExp]

/-- The backward-induction root value mandated by the claim is 9/4 at the failing input. -/
lemma tri_ref_val : TrinomialTreeModel.price_ref triBugExp triBugSqrt 2 triBugOpt triBugMkt
    = 9/4 := by
  rw [TrinomialTreeModel.price_ref]
  norm_num [triBugSqrt, triBugMkt, triBugExp, triBugOpt]
  rw [show (⟨3, 2, OptionType.PUT, OptionStyle.AMERICAN, OptionKind.vanilla⟩ : OptionData)
      = triBugOpt from rfl]
  exact tri_ref_root

/-- C1: for price_american of the binomial tree the claim holds — after any number of
backward passes every entry of the working array equals the reference backward-induction
node value (terminal layer = payoff; every interior node = max of discounted expected
continuation and immediate exercise at that node's spot). For the trinomial tree the
claim fails: at the concrete failing input (N = 2, American put) the code returns 73/32
while the backward induction mandated by the claim yields 9/4 = 72/32, because the
trinomial pass reads `values[i-1]` after overwriting it in the same pass and computes
interior exercise spots from the wrapped unsigned index `i - num_steps_`. -/
theorem binomial_max_rule_holds_but_trinomial_diverges :
    (∀ (o : OptionData) (S : ℚ) (tp : BinomialTreeModel.TreeParams) (N k i : ℕ),
        k ≤ N → i ≤ N - k →
        (BinomialTreeModel.amer_layer o S tp N k).getD i 0 =
          BinomialTreeModel.amer_node o S tp N (N - k) i) ∧
    TrinomialTreeModel.price triBugExp triBugSqrt 2 triBugOpt triBugMkt = 73 / 32 ∧
    TrinomialTreeModel.price_ref triBugExp triBugSqrt 2 triBugOpt triBugMkt = 9 / 4 ∧
    (73 / 32 : ℚ) ≠ 9 / 4 := by
  refine ⟨fun o S tp N k i hk hi =>
    BinomialTreeModel.amer_layer_getD o S tp N k hk i hi, tri_code_val, tri_ref_val, ?_⟩
  norm_num

/-- Witness for the hypothesis-bearing conjunct of the C1 theorem: the binomial per-node
rule applied at N = 1, k = 1, i = 0 on concrete parameters. -/
theorem binomial_max_rule_witness :
    1 ≤ 1 ∧ 0 ≤ 1 - 1 ∧
    (BinomialTreeModel.amer_layer triBugOpt 1 ⟨2, 1/2, 1/2, 1, 1⟩ 1 1).getD 0 0 =
      BinomialTreeModel.amer_node triBugOpt 1 ⟨2, 1/2, 1/2, 1, 1⟩ 1 (1 - 1) 0 :=
  ⟨le_refl 1, Nat.zero_le _,
    binomial_max_rule_holds_but_trinomial_diverges.1 triBugOpt 1 ⟨2, 1/2, 1/2, 1, 1⟩
      1 1 0 (le_refl 1) (Nat.zero_le _)⟩

namespace BinomialTreeModel

/-- The CRR risk-neutral up-probability named by the claim:
p = (exp((r-q)·dt) - d) / (u - d) with u = exp(sigma·sqrt dt), d = 1/u. -/
def crr_p (Ex Sq : ℚ → ℚ) (num_steps : ℕ) (m : MarketData) (T : ℚ) : ℚ :=
  let dt := T / (num_steps : ℚ)
  let u := Ex (m.volatility * Sq dt)
  let d := 1 / u
  (Ex ((m.rate - m.dividend) * dt) - d) / (u - d)

/-- C3: calculate_parameters reports an invalid configuration exactly when the CRR
up-probability lies outside [0,1]; on success the returned probability is exactly the
computed p (never clamped); and whenever p lies in [0,1], pricing proceeds to a value. -/
theorem crr_probability_guard (Ex Sq : ℚ → ℚ) (N : ℕ) (m : MarketData) (T : ℚ) :
    ((∃ e, calculate_parameters Ex Sq N m T = Except.error e) ↔
      ¬ (0 ≤ crr_p Ex Sq N m T ∧ crr_p Ex Sq N m T ≤ 1)) ∧
    (∀ tp, calculate_parameters Ex Sq N m T = Except.ok tp →
      tp.p = crr_p Ex Sq N m T) ∧
    ((0 ≤ crr_p Ex Sq N m T ∧ crr_p Ex Sq N m T ≤ 1) →
      ∀ o : OptionData, o.expiry = T → ∃ v, price Ex Sq N o m = Except.ok v) := by
  by_cases hc : crr_p Ex Sq N m T < 0 ∨ crr_p Ex Sq N m T > 1
  · have herr : calculate_parameters Ex Sq N m T
        = Except.error "Invalid binomial tree parameters" := by
      have hc' := hc
      simp only [crr_p] at hc'
      simp only [calculate_parameters]
      rw [if_pos hc']
    refine ⟨⟨fun _ hmem => ?_, fun _ => ⟨_, herr⟩⟩, fun tp htp => ?_, fun hmem => ?_⟩
    · rcases hc with h | h
      · exact absurd hmem.1 (not_le.mpr h)
      · exact absurd hmem.2 (not_le.mpr h)
    · rw [herr] at htp
      cases htp
    · rcases hc with h | h
      · exact absurd hmem.1 (not_le.mpr h)
      · exact absurd hmem.2 (not_le.mpr h)
  · have hc' := hc
    simp only [crr_p] at hc'
    have hok : calculate_parameters Ex Sq N m T = Except.ok
        ⟨Ex (m.volatility * Sq (T / (N : ℚ))),
         1 / Ex (m.volatility * Sq (T / (N : ℚ))),
         crr_p Ex Sq N m T, T / (N : ℚ), Ex (-(m.rate * (T / (N : ℚ))))⟩ := by
      simp only [calculate_parameters, crr_p]
      rw [if_neg hc']
    push_neg at hc
    refine ⟨⟨fun he => ?_, fun hmem => absurd ⟨hc.1, hc.2⟩ hmem⟩,
      fun tp htp => ?_, fun _ o ho => ?_⟩
    · obtain ⟨e, he⟩ := he
      rw [hok] at he
      cases he
    · rw [hok] at htp
      cases htp
      rfl
    · unfold price
      rw [ho, hok]
      exact ⟨_, rfl⟩

end BinomialTreeModel

/-- Concrete affine exp stand-in used in witnesses. -/
def affineExp : ℚ → ℚ := fun x => x + 2

/-- Concrete witness market data for the CRR guard: spot 1, rate 0, volatility 1,
no dividend. -/
def crrWitMkt : MarketData := ⟨1, 0, 1, 0⟩

/-- Concrete witness option: European vanilla call, strike 1, expiry 1. -/
def crrWitOpt : OptionData :=
  ⟨1, 1, OptionType.CALL, OptionStyle.EUROPEAN, OptionKind.vanilla⟩

/-- Witness for the C3 theorem: at the concrete input the CRR probability is 5/8 ∈ [0,1]
and pricing proceeds. -/
theorem crr_probability_guard_witness :
    (0 ≤ BinomialTreeModel.crr_p affineExp id 1 crrWitMkt 1 ∧
      BinomialTreeModel.crr_p affineExp id 1 crrWitMkt 1 ≤ 1) ∧
    (∃ v, BinomialTreeModel.price affineExp id 1 crrWitOpt crrWitMkt = Except.ok v) := by
  have hp : 0 ≤ BinomialTreeModel.crr_p affineExp id 1 crrWitMkt 1 ∧
      BinomialTreeModel.crr_p affineExp id 1 crrWitMkt 1 ≤ 1 := by
    norm_num [BinomialTreeModel.crr_p, affineExp, crrWitMkt]
  exact ⟨hp,
    (BinomialTreeModel.crr_probability_guard affineExp id 1 crrWitMkt 1).2.2 hp crrWitOpt rfl⟩

namespace AsianOption

/-- AsianOption::calculate_average (include/derivatives/products/asian_option.hpp:22-39):
arithmetic mean, or pow(product, 1/n) for the geometric mean. `rootn x n` stands for
std::pow(x, 1.0/n). -/
def calculate_average (rootn : ℚ → ℕ → ℚ) (avgType : AveragingType)
    (observations : List ℚ) : ℚ :=
  if observations.isEmpty then 0
  else
    match avgType with
    | AveragingType.ARITHMETIC => observations.sum / (observations.length : ℚ)
    | AveragingType.GEOMETRIC => rootn observations.prod observations.length

end AsianOption

namespace BarrierOption

/-- BarrierOption::is_knocked (include/derivatives/products/asian_option.hpp, barrier
section): spot ≥ level for UP barriers, spot ≤ level for DOWN barriers. -/
def is_knocked (btype : BarrierType) (level s : ℚ) : Bool :=
  match btype with
  | BarrierType.UP_AND_IN => decide (level ≤ s)
  | BarrierType.UP_AND_OUT => decide (level ≤ s)
  | BarrierType.DOWN_AND_IN => decide (s ≤ level)
  | BarrierType.DOWN_AND_OUT => decide (s ≤ level)

/-- BarrierOption::is_knock_in. -/
def is_knock_in (btype : BarrierType) : Bool :=
  match btype with
  | BarrierType.UP_AND_IN => true
  | BarrierType.DOWN_AND_IN => true
  | _ => false

end BarrierOption

namespace MonteCarloModel

/-- MonteCarloConfig (include/derivatives/models/monte_carlo.hpp). -/
structure MonteCarloConfig where
  num_paths : ℕ
  num_timesteps : ℕ
  seed : ℕ
  use_antithetic : Bool
  use_control_variate : Bool
deriving DecidableEq, Repr

/-- Value S[i] of a simulated log-normal path whose draws start at cursor `c` of the
stream (monte_carlo.cpp:21-24): S[i] = S[i-1] · Ex(drift + diffusion · Z), one fresh
draw per step. -/
def path_value (Ex : ℚ → ℚ) (S0 drift diffusion : ℚ) (stream : ℕ → ℚ) (c : ℕ) : ℕ → ℚ
  | 0 => S0
  | i + 1 => path_value Ex S0 drift diffusion stream c i *
      Ex (drift + diffusion * stream (c + i))

/-- MonteCarloModel::simulate_path (monte_carlo.cpp:9-27), consuming `num_steps` draws
starting at cursor `c`. -/
def simulate_path (Ex Sq : ℚ → ℚ) (S0 : ℚ) (m : MarketData) (T : ℚ) (num_steps : ℕ)
    (stream : ℕ → ℚ) (c : ℕ) : List ℚ :=
  let dt := T / (num_steps : ℚ)
  let drift := (m.rate - m.dividend - 0.5 * m.volatility * m.volatility) * dt
  let diffusion := m.volatility * Sq dt
  (List.range (num_steps + 1)).map (path_value Ex S0 drift diffusion stream c)

/-- The accumulation loop of MonteCarloModel::price for a plain European vanilla
(monte_carlo.cpp:55-67): (sum, cursor) after n iterations. Each iteration simulates one
path (consuming num_timesteps draws) and adds its terminal payoff to the sum; under
use_antithetic the SAME payoff is added a second time — the source marks this line
`sum += payoff;  // Placeholder`, no sign-flipped path is generated. -/
def price_loop (Ex Sq : ℚ → ℚ) (cfg : MonteCarloConfig) (o : OptionData) (m : MarketData)
    (stream : ℕ → ℚ) (c0 : ℕ) : ℕ → ℚ × ℕ
  | 0 => (0, c0)
  | n + 1 =>
    let prev := price_loop Ex Sq cfg o m stream c0 n
    let path := simulate_path Ex Sq m.spot m o.expiry cfg.num_timesteps stream prev.2
    let payoff := o.payoff (path.getLastD 0)
    (prev.1 + payoff + (if cfg.use_antithetic then payoff else 0),
     prev.2 + cfg.num_timesteps)

/-- The accumulation loop of MonteCarloModel::price_asian (monte_carlo.cpp:81-86): each
iteration simulates a path of option.num_observations() steps and adds the payoff of the
path's average (note: the average includes path[0] = S0, as in the source). -/
def asian_loop (Ex Sq : ℚ → ℚ) (rootn : ℚ → ℕ → ℚ) (o : OptionData)
    (avgType : AveragingType) (numObs : ℕ) (m : MarketData) (stream : ℕ → ℚ) (c0 : ℕ) :
    ℕ → ℚ × ℕ
  | 0 => (0, c0)
  | n + 1 =>
    let prev := asian_loop Ex Sq rootn o avgType numObs m stream c0 n
    let path := simulate_path Ex Sq m.spot m o.expiry numObs stream prev.2
    let avg := AsianOption.calculate_average rootn avgType path
    (prev.1 + o.payoff avg, prev.2 + numObs)

/-- MonteCarloModel::price_asian (monte_carlo.cpp:74-90). -/
def price_asian (Ex Sq : ℚ → ℚ) (rootn : ℚ → ℕ → ℚ) (cfg : MonteCarloConfig)
    (o : OptionData) (avgType : AveragingType) (numObs : ℕ) (m : MarketData)
    (stream : ℕ → ℚ) (c0 : ℕ) : ℚ :=
  let sum := (asian_loop Ex Sq rootn o avgType numObs m stream c0 cfg.num_paths).1
  let mean_payoff := sum / (cfg.num_paths : ℚ)
  Ex (-(m.rate * o.expiry)) * mean_payoff

/-- The accumulation loop of MonteCarloModel::price_barrier (monte_carlo.cpp:99-129):
walk the full path checking is_knocked at every observed value (path[0] included); for
knock-in pay the BASE-class vanilla payoff at the terminal spot if hit, else the rebate;
for knock-out the reverse. -/
def barrier_loop (Ex Sq : ℚ → ℚ) (cfg : MonteCarloConfig) (o : OptionData)
    (btype : BarrierType) (level rebate : ℚ) (m : MarketData) (stream : ℕ → ℚ) (c0 : ℕ) :
    ℕ → ℚ × ℕ
  | 0 => (0, c0)
  | n + 1 =>
    let prev := barrier_loop Ex Sq cfg o btype level rebate m stream c0 n
    let path := simulate_path Ex Sq m.spot m o.expiry cfg.num_timesteps stream prev.2
    let barrier_hit := path.any fun s => BarrierOption.is_knocked btype level s
    let payoff :=
      if BarrierOption.is_knock_in btype then
        (if barrier_hit then o.base_payoff (path.getLastD 0) else rebate)
      else
        (if barrier_hit then rebate else o.base_payoff (path.getLastD 0))
    (prev.1 + payoff, prev.2 + cfg.num_timesteps)

/-- MonteCarloModel::price_barrier (monte_carlo.cpp:92-133). -/
def price_barrier (Ex Sq : ℚ → ℚ) (cfg : MonteCarloConfig) (o : OptionData)
    (btype : BarrierType) (level rebate : ℚ) (m : MarketData) (stream : ℕ → ℚ)
    (c0 : ℕ) : ℚ :=
  let sum := (barrier_loop Ex Sq cfg o btype level rebate m stream c0 cfg.num_paths).1
  let mean_payoff := sum / (cfg.num_paths : ℚ)
  Ex (-(m.rate * o.expiry)) * mean_payoff

/-- MonteCarloModel::price (monte_carlo.cpp:29-72): the style guard runs first; the
dynamic_cast dispatch to the Asian/Barrier pricers is modelled by matching the product
kind; otherwise the plain European loop runs, halving the simulated path count under
use_antithetic and dividing the payoff sum by num_paths. -/
def price (Ex Sq : ℚ → ℚ) (rootn : ℚ → ℕ → ℚ) (cfg : MonteCarloConfig) (o : OptionData)
    (m : MarketData) (stream : ℕ → ℚ) (c0 : ℕ) : Except String ℚ :=
  if o.style ≠ OptionStyle.EUROPEAN then
    Except.error
      "Basic Monte Carlo only supports European options. Use LSMC for American options."
  else
    match o.kind with
    | OptionKind.asian avgType numObs =>
        Except.ok (price_asian Ex Sq rootn cfg o avgType numObs m stream c0)
    | OptionKind.barrier btype level rebate =>
        Except.ok (price_barrier Ex Sq cfg o btype level rebate m stream c0)
    | _ =>
        let total_paths := if cfg.use_antithetic then cfg.num_paths / 2 else cfg.num_paths
        let sum := (price_loop Ex Sq cfg o m stream c0 total_paths).1
        let actual_paths : ℚ :=
          if cfg.use_antithetic then (cfg.num_paths : ℚ) else (total_paths : ℚ)
        let mean_payoff := sum / actual_paths
        Except.ok (Ex (-(m.rate * o.expiry)) * mean_payoff)

/-- Modelled from the spec: the intended antithetic accumulation loop — each independent
path is paired with a path generated from the sign-flipped shocks -Z, and both payoffs
enter the sum. -/
def price_loop_spec (Ex Sq : ℚ → ℚ) (cfg : MonteCarloConfig) (o : OptionData)
    (m : MarketData) (stream : ℕ → ℚ) (c0 : ℕ) : ℕ → ℚ × ℕ
  | 0 => (0, c0)
  | n + 1 =>
    let prev := price_loop_spec Ex Sq cfg o m stream c0 n
    let path := simulate_path Ex Sq m.spot m o.expiry cfg.num_timesteps stream prev.2
    let anti := simulate_path Ex Sq m.spot m o.expiry cfg.num_timesteps
      (fun i => -(stream i)) prev.2
    (prev.1 + o.payoff (path.getLastD 0) + o.payoff (anti.getLastD 0),
     prev.2 + cfg.num_timesteps)

/-- Modelled from the spec: the intended antithetic price — num_paths/2 independent
paths, each reused with sign-flipped shocks, payoff sum divided by the actual number of
contributing payoffs (num_paths). -/
def price_antithetic_spec (Ex Sq : ℚ → ℚ) (cfg : MonteCarloConfig) (o : OptionData)
    (m : MarketData) (stream : ℕ → ℚ) (c0 : ℕ) : ℚ :=
  let sum := (price_loop_spec Ex Sq cfg o m stream c0 (cfg.num_paths / 2)).1
  Ex (-(m.rate * o.expiry)) * (sum / (cfg.num_paths : ℚ))

end MonteCarloModel

/-- Concrete exp stand-in 1 + x, used for the antithetic failing input. -/
def shiftExp : ℚ → ℚ := fun x => 1 + x

/-- Failing-input Monte Carlo configuration: 2 paths, 1 timestep, antithetic on. -/
def mcBugCfg : MonteCarloModel.MonteCarloConfig := ⟨2, 1, 0, true, false⟩

/-- Under use_antithetic, every iteration of the plain Monte Carlo loop adds the SAME
payoff twice, so the accumulated sum is exactly twice the non-antithetic sum over the
same paths and the cursor advance is identical (no extra draws are consumed). -/
lemma mc_loop_doubles (Ex Sq : ℚ → ℚ) (np ts seed : ℕ) (cv : Bool)
    (o : OptionData) (m : MarketData) (stream : ℕ → ℚ) (c0 : ℕ) :
    ∀ n, (MonteCarloModel.price_loop Ex Sq ⟨np, ts, seed, true, cv⟩ o m stream c0 n).1
        = 2 * (MonteCarloModel.price_loop Ex Sq ⟨np, ts, seed, false, cv⟩ o m stream c0 n).1 ∧
      (MonteCarloModel.price_loop Ex Sq ⟨np, ts, seed, true, cv⟩ o m stream c0 n).2
        = (MonteCarloModel.price_loop Ex Sq ⟨np, ts, seed, false, cv⟩ o m stream c0 n).2 := by
  intro n
  induction n with
  | zero => simp [MonteCarloModel.price_loop]
  | succ n ih =>
    simp only [MonteCarloModel.price_loop]
    rw [ih.2, ih.1]
    constructor
    · simp
      ring
    · rfl

/-- At the failing input the engine returns 1/2: each of the num_paths/2 = 1 simulated
paths contributes its payoff twice. -/
lemma mc_code_val : MonteCarloModel.price shiftExp id (fun x _ => x) mcBugCfg crrWitOpt
    crrWitMkt (fun _ => 1) 0 = Except.ok (1/2) := by
  norm_num [MonteCarloModel.price, MonteCarloModel.price_loop, MonteCarloModel.simulate_path,
    MonteCarloModel.path_value, mcBugCfg, crrWitOpt, crrWitMkt, shiftExp,
    OptionData.payoff, OptionData.base_payoff, List.range_succ]

/-- At the same input the antithetic estimator the spec mandates returns 1/4: the paired
path uses the sign-flipped shock -Z and its payoff is 0. -/
lemma mc_spec_val : MonteCarloModel.price_antithetic_spec shiftExp id mcBugCfg crrWitOpt
    crrWitMkt (fun _ => 1) 0 = 1/4 := by
  norm_num [MonteCarloModel.price_antithetic_spec, MonteCarloModel.price_loop_spec,
    MonteCarloModel.simulate_path, MonteCarloModel.path_value, mcBugCfg, crrWitOpt,
    crrWitMkt, shiftExp, OptionData.payoff, OptionData.base_payoff, List.range_succ]

/-- C2: the engine does halve the number of simulated paths under use_antithetic, but it
does NOT generate a sign-flipped paired path — each payoff is simply added twice (the
source's own comment says "Placeholder"), so every payoff is double-counted in the sum
divided by num_paths. Conjuncts: (1) in general the antithetic loop sum is exactly twice
the non-antithetic sum over the same draws; (2)-(4) at a concrete input the engine
returns 1/2 while the sign-flipped antithetic estimator described by the claim
returns 1/4. -/
theorem antithetic_is_placeholder_not_sign_flipped :
    (∀ (Ex Sq : ℚ → ℚ) (np ts seed : ℕ) (cv : Bool) (o : OptionData) (m : MarketData)
        (stream : ℕ → ℚ) (c0 n : ℕ),
      (MonteCarloModel.price_loop Ex Sq ⟨np, ts, seed, true, cv⟩ o m stream c0 n).1
        = 2 * (MonteCarloModel.price_loop Ex Sq ⟨np, ts, seed, false, cv⟩ o m stream c0 n).1) ∧
    MonteCarloModel.price shiftExp id (fun x _ => x) mcBugCfg crrWitOpt crrWitMkt
      (fun _ => 1) 0 = Except.ok (1/2) ∧
    MonteCarloModel.price_antithetic_spec shiftExp id mcBugCfg crrWitOpt crrWitMkt
      (fun _ => 1) 0 = 1/4 ∧
    ((1 : ℚ)/2 ≠ 1/4) := by
  refine ⟨fun Ex Sq np ts seed cv o m stream c0 n =>
    (mc_loop_doubles Ex Sq np ts seed cv o m stream c0 n).1, mc_code_val, mc_spec_val, ?_⟩
  norm_num

namespace MonteCarloModel

/-- A path value after i steps depends only on the i draws at cursor positions c..c+i-1. -/
lemma path_value_congr (Ex : ℚ → ℚ) (S0 drift diffusion : ℚ) (s s' : ℕ → ℚ) (c : ℕ) :
    ∀ i, (∀ j, j < i → s (c + j) = s' (c + j)) →
      path_value Ex S0 drift diffusion s c i = path_value Ex S0 drift diffusion s' c i := by
  intro i
  induction i with
  | zero => intro _; rfl
  | succ i ih =>
    intro h
    simp only [path_value]
    rw [ih (fun j hj => h j (by omega)), h i (by omega)]

/-- simulate_path depends only on the num_steps draws starting at its cursor. -/
lemma simulate_path_congr (Ex Sq : ℚ → ℚ) (S0 : ℚ) (m : MarketData) (T : ℚ)
    (steps : ℕ) (s s' : ℕ → ℚ) (c : ℕ)
    (h : ∀ j, j < steps → s (c + j) = s' (c + j)) :
    simulate_path Ex Sq S0 m T steps s c = simulate_path Ex Sq S0 m T steps s' c := by
  simp only [simulate_path]
  refine List.map_congr_left fun i hi => ?_
  have hi' : i < steps + 1 := List.mem_range.mp hi
  exact path_value_congr Ex S0 _ _ s s' c i fun j hj => h j (by omega)

/-- After n iterations the plain loop's cursor has advanced by n·num_timesteps. -/
lemma price_loop_cursor (Ex Sq : ℚ → ℚ) (cfg : MonteCarloConfig) (o : OptionData)
    (m : MarketData) (s : ℕ → ℚ) (c0 : ℕ) :
    ∀ n, (price_loop Ex Sq cfg o m s c0 n).2 = c0 + n * cfg.num_timesteps := by
  intro n
  induction n with
  | zero => simp [price_loop]
  | succ n ih =>
    simp only [price_loop, ih, Nat.succ_mul]
    omega

/-- The plain loop depends only on the n·num_timesteps draws it consumes. -/
lemma price_loop_congr (Ex Sq : ℚ → ℚ) (cfg : MonteCarloConfig) (o : OptionData)
    (m : MarketData) (s s' : ℕ → ℚ) (c0 : ℕ) :
    ∀ n, (∀ j, j < n * cfg.num_timesteps → s (c0 + j) = s' (c0 + j)) →
      price_loop Ex Sq cfg o m s c0 n = price_loop Ex Sq cfg o m s' c0 n := by
  intro n
  induction n with
  | zero => intro _; rfl
  | succ n ih =>
    intro h
    have hmul : (n + 1) * cfg.num_timesteps = n * cfg.num_timesteps + cfg.num_timesteps :=
      Nat.succ_mul n cfg.num_timesteps
    have hprev : price_loop Ex Sq cfg o m s c0 n = price_loop Ex Sq cfg o m s' c0 n :=
      ih fun j hj => h j (by omega)
    simp only [price_loop, hprev]
    rw [simulate_path_congr Ex Sq m.spot m o.expiry cfg.num_timesteps s s'
      (price_loop Ex Sq cfg o m s' c0 n).2 ?_]
    intro j hj
    rw [price_loop_cursor, Nat.add_assoc]
    exact h (n * cfg.num_timesteps + j) (by omega)

end MonteCarloModel

namespace MonteCarloModel

/-- After n iterations the Asian loop's cursor has advanced by n·numObs. -/
lemma asian_loop_cursor (Ex Sq : ℚ → ℚ) (rootn : ℚ → ℕ → ℚ) (o : OptionData)
    (avgType : AveragingType) (numObs : ℕ) (m : MarketData) (s : ℕ → ℚ) (c0 : ℕ) :
    ∀ n, (asian_loop Ex Sq rootn o avgType numObs m s c0 n).2 = c0 + n * numObs := by
  intro n
  induction n with
  | zero => simp [asian_loop]
  | succ n ih =>
    simp only [asian_loop, ih, Nat.succ_mul]
    omega

/-- The Asian loop depends only on the n·numObs draws it consumes. -/
lemma asian_loop_congr (Ex Sq : ℚ → ℚ) (rootn : ℚ → ℕ → ℚ) (o : OptionData)
    (avgType : AveragingType) (numObs : ℕ) (m : MarketData) (s s' : ℕ → ℚ) (c0 : ℕ) :
    ∀ n, (∀ j, j < n * numObs → s (c0 + j) = s' (c0 + j)) →
      asian_loop Ex Sq rootn o avgType numObs m s c0 n
        = asian_loop Ex Sq rootn o avgType numObs m s' c0 n := by
  intro n
  induction n with
  | zero => intro _; rfl
  | succ n ih =>
    intro h
    have hmul : (n + 1) * numObs = n * numObs + numObs := Nat.succ_mul n numObs
    have hprev := ih fun j hj => h j (by omega)
    simp only [asian_loop, hprev]
    rw [simulate_path_congr Ex Sq m.spot m o.expiry numObs s s'
      (asian_loop Ex Sq rootn o avgType numObs m s' c0 n).2 ?_]
    intro j hj
    rw [asian_loop_cursor, Nat.add_assoc]
    exact h (n * numObs + j) (by omega)

/-- After n iterations the barrier loop's cursor has advanced by n·num_timesteps. -/
lemma barrier_loop_cursor (Ex Sq : ℚ → ℚ) (cfg : MonteCarloConfig) (o : OptionData)
    (btype : BarrierType) (level rebate : ℚ) (m : MarketData) (s : ℕ → ℚ) (c0 : ℕ) :
    ∀ n, (barrier_loop Ex Sq cfg o btype level rebate m s c0 n).2
      = c0 + n * cfg.num_timesteps := by
  intro n
  induction n with
  | zero => simp [barrier_loop]
  | succ n ih =>
    simp only [barrier_loop, ih, Nat.succ_mul]
    omega

/-- The barrier loop depends only on the n·num_timesteps draws it consumes. -/
lemma barrier_loop_congr (Ex Sq : ℚ → ℚ) (cfg : MonteCarloConfig) (o : OptionData)
    (btype : BarrierType) (level rebate : ℚ) (m : MarketData) (s s' : ℕ → ℚ) (c0 : ℕ) :
    ∀ n, (∀ j, j < n * cfg.num_timesteps → s (c0 + j) = s' (c0 + j)) →
      barrier_loop Ex Sq cfg o btype level rebate m s c0 n
        = barrier_loop Ex Sq cfg o btype level rebate m s' c0 n := by
  intro n
  induction n with
  | zero => intro _; rfl
  | succ n ih =>
    intro h
    have hmul : (n + 1) * cfg.num_timesteps = n * cfg.num_timesteps + cfg.num_timesteps :=
      Nat.succ_mul n cfg.num_timesteps
    have hprev := ih fun j hj => h j (by omega)
    simp only [barrier_loop, hprev]
    rw [simulate_path_congr Ex Sq m.spot m o.expiry cfg.num_timesteps s s'
      (barrier_loop Ex Sq cfg o btype level rebate m s' c0 n).2 ?_]
    intro j hj
    rw [barrier_loop_cursor, Nat.add_assoc]
    exact h (n * cfg.num_timesteps + j) (by omega)

/-- The number of draws MonteCarloModel::price consumes from the generator, by product
kind: num_paths paths of num_observations steps for Asian, num_paths paths of
num_timesteps steps for barrier, and (num_paths/2 under antithetic, else num_paths)
paths of num_timesteps steps for the plain European loop. -/
def draws_used (cfg : MonteCarloConfig) (o : OptionData) : ℕ :=
  match o.kind with
  | OptionKind.asian _ numObs => cfg.num_paths * numObs
  | OptionKind.barrier _ _ _ => cfg.num_paths * cfg.num_timesteps
  | _ => (if cfg.use_antithetic then cfg.num_paths / 2 else cfg.num_paths) *
      cfg.num_timesteps

end MonteCarloModel

/-- The Monte Carlo engine's price reads only the draws_used-long prefix of the draw
stream starting at the generator's cursor, so any two streams that agree on that prefix
give bit-identical prices for every option kind and configuration. -/
lemma mc_price_prefix_congr (Ex Sq : ℚ → ℚ) (rootn : ℚ → ℕ → ℚ)
    (cfg : MonteCarloModel.MonteCarloConfig) (o : OptionData) (m : MarketData)
    (s s' : ℕ → ℚ) (c0 : ℕ)
    (h : ∀ j, j < MonteCarloModel.draws_used cfg o → s (c0 + j) = s' (c0 + j)) :
    MonteCarloModel.price Ex Sq rootn cfg o m s c0
      = MonteCarloModel.price Ex Sq rootn cfg o m s' c0 := by
  by_cases hs : o.style ≠ OptionStyle.EUROPEAN
  · simp only [MonteCarloModel.price, if_pos hs]
  · rcases hkind : o.kind with _ | ⟨avgType, numObs⟩ | ⟨btype, level, rebate⟩ | payout
    all_goals simp only [MonteCarloModel.price, if_neg hs, hkind]
    · rw [MonteCarloModel.price_loop_congr Ex Sq cfg o m s s' c0 _
        (fun j hj => h j (by simpa [MonteCarloModel.draws_used, hkind] using hj))]
    · simp only [MonteCarloModel.price_asian]
      rw [MonteCarloModel.asian_loop_congr Ex Sq rootn o avgType numObs m s s' c0 _
        (fun j hj => h j (by simpa [MonteCarloModel.draws_used, hkind] using hj))]
    · simp only [MonteCarloModel.price_barrier]
      rw [MonteCarloModel.barrier_loop_congr Ex Sq cfg o btype level rebate m s s' c0 _
        (fun j hj => h j (by simpa [MonteCarloModel.draws_used, hkind] using hj))]
    · rw [MonteCarloModel.price_loop_congr Ex Sq cfg o m s s' c0 _
        (fun j hj => h j (by simpa [MonteCarloModel.draws_used, hkind] using hj))]

namespace RandomGenerator

/-- RandomGenerator::correlated_normals (include/derivatives/math/interpolation.hpp:92-98):
draws z1 then z2 (cursor positions c and c+1) and returns
(z1, correlation·z1 + sqrt(1-correlation²)·z2). -/
def correlated_normals (Sq : ℚ → ℚ) (stream : ℕ → ℚ) (c : ℕ) (correlation : ℚ) : ℚ × ℚ :=
  let z1 := stream c
  let z2 := stream (c + 1)
  let w1 := z1
  let w2 := correlation * z1 + Sq (1 - correlation * correlation) * z2
  (w1, w2)

end RandomGenerator

namespace HestonModel

/-- HestonParams (include/derivatives/models/heston.hpp). -/
structure HestonParams where
  kappa : ℚ
  theta : ℚ
  sigma : ℚ
  rho : ℚ
  v0 : ℚ
deriving DecidableEq, Repr

/-- The (asset, variance) pair after i Euler steps of HestonModel::simulate_path
(heston.cpp:119-148). Step i+1 draws the correlated pair at cursor c + 2i, floors the
previous variance at 0 (full truncation), and applies
dv = kappa(theta - v⁺)dt + sigma·sqrt(v⁺·dt)·Z2 and dS = (r-q)S·dt + S·sqrt(v⁺·dt)·Z1. -/
def path_values (Sq : ℚ → ℚ) (p : HestonParams) (S0 v0 : ℚ) (m : MarketData) (dt : ℚ)
    (stream : ℕ → ℚ) (c : ℕ) : ℕ → ℚ × ℚ
  | 0 => (S0, v0)
  | i + 1 =>
    let prev := path_values Sq p S0 v0 m dt stream c i
    let Z := RandomGenerator.correlated_normals Sq stream (c + 2 * i) p.rho
    let v_prev := max prev.2 0
    let dv := p.kappa * (p.theta - v_prev) * dt + p.sigma * Sq (v_prev * dt) * Z.2
    let dS := (m.rate - m.dividend) * prev.1 * dt + prev.1 * Sq (v_prev * dt) * Z.1
    (prev.1 + dS, v_prev + dv)

/-- HestonModel::simulate_path (heston.cpp:119-148) as the pair of path lists. -/
def simulate_path (Sq : ℚ → ℚ) (p : HestonParams) (S0 v0 : ℚ) (m : MarketData) (T : ℚ)
    (num_steps : ℕ) (stream : ℕ → ℚ) (c : ℕ) : List ℚ × List ℚ :=
  let dt := T / (num_steps : ℚ)
  ((List.range (num_steps + 1)).map fun i => (path_values Sq p S0 v0 m dt stream c i).1,
   (List.range (num_steps + 1)).map fun i => (path_values Sq p S0 v0 m dt stream c i).2)

/-- The accumulation loop of HestonModel::price_monte_carlo (heston.cpp:109-113):
each path consumes 2·num_steps draws (one correlated pair per step). -/
def mc_loop (Sq : ℚ → ℚ) (p : HestonParams) (o : OptionData) (m : MarketData)
    (num_steps : ℕ) (stream : ℕ → ℚ) (c0 : ℕ) : ℕ → ℚ × ℕ
  | 0 => (0, c0)
  | n + 1 =>
    let prev := mc_loop Sq p o m num_steps stream c0 n
    let path := simulate_path Sq p m.spot p.v0 m o.expiry num_steps stream prev.2
    (prev.1 + o.payoff (path.1.getLastD 0), prev.2 + 2 * num_steps)

/-- HestonModel::price_monte_carlo (heston.cpp:100-117). `streamOf seed` is the output
stream of a RandomGenerator constructed with `seed`; the body constructs a FRESH
generator with the fixed literal seed 12345 on every invocation, so it reads
`streamOf 12345` from cursor 0 regardless of any engine or caller state. -/
def price_monte_carlo (Ex Sq : ℚ → ℚ) (streamOf : ℕ → ℕ → ℚ) (p : HestonParams)
    (o : OptionData) (m : MarketData) (num_paths num_steps : ℕ) : ℚ :=
  let rng := streamOf 12345
  let sum := (mc_loop Sq p o m num_steps rng 0 num_paths).1
  let mean_payoff := sum / (num_paths : ℚ)
  Ex (-(m.rate * o.expiry)) * mean_payoff

/-- A call to price_monte_carlo viewed as a state transformer over a hypothetical engine
random-generator state (modelled as the pair seed × cursor): the body never reads nor
advances that state, because the generator it uses is constructed locally. -/
def price_monte_carlo_call (Ex Sq : ℚ → ℚ) (streamOf : ℕ → ℕ → ℚ) (p : HestonParams)
    (o : OptionData) (m : MarketData) (num_paths num_steps : ℕ) :
    ℕ × ℕ → ℚ × (ℕ × ℕ) :=
  fun st => (price_monte_carlo Ex Sq streamOf p o m num_paths num_steps, st)

/-- The Heston loop depends only on the 2·num_steps·n draws it consumes. -/
lemma path_values_congr (Sq : ℚ → ℚ) (p : HestonParams) (S0 v0 : ℚ) (m : MarketData)
    (dt : ℚ) (s s' : ℕ → ℚ) (c : ℕ) :
    ∀ i, (∀ j, j < 2 * i → s (c + j) = s' (c + j)) →
      path_values Sq p S0 v0 m dt s c i = path_values Sq p S0 v0 m dt s' c i := by
  intro i
  induction i with
  | zero => intro _; rfl
  | succ i ih =>
    intro h
    simp only [path_values, RandomGenerator.correlated_normals]
    rw [ih (fun j hj => h j (by omega)),
      show c + 2 * i + 1 = c + (2 * i + 1) from by omega,
      show c + 2 * i = c + (2 * i) from rfl,
      h (2 * i) (by omega), h (2 * i + 1) (by omega)]


/-- simulate_path depends only on the 2·num_steps draws starting at its cursor. -/
lemma heston_path_list_congr (Sq : ℚ → ℚ) (p : HestonParams) (S0 v0 : ℚ) (m : MarketData)
    (T : ℚ) (num_steps : ℕ) (s s' : ℕ → ℚ) (c : ℕ)
    (h : ∀ j, j < 2 * num_steps → s (c + j) = s' (c + j)) :
    simulate_path Sq p S0 v0 m T num_steps s c
      = simulate_path Sq p S0 v0 m T num_steps s' c := by
  simp only [simulate_path]
  refine congrArg₂ Prod.mk ?_ ?_
  · refine List.map_congr_left fun i hi => ?_
    have hi' := List.mem_range.mp hi
    rw [path_values_congr Sq p S0 v0 m _ s s' c i (fun j hj => h j (by omega))]
  · refine List.map_congr_left fun i hi => ?_
    have hi' := List.mem_range.mp hi
    rw [path_values_congr Sq p S0 v0 m _ s s' c i (fun j hj => h j (by omega))]

/-- After n paths the Heston Monte Carlo cursor has advanced by n·(2·num_steps): every
step of every path consumes a fresh correlated pair. -/
lemma mc_loop_cursor (Sq : ℚ → ℚ) (p : HestonParams) (o : OptionData) (m : MarketData)
    (num_steps : ℕ) (s : ℕ → ℚ) (c0 : ℕ) :
    ∀ n, (mc_loop Sq p o m num_steps s c0 n).2 = c0 + n * (2 * num_steps) := by
  intro n
  induction n with
  | zero => simp [mc_loop]
  | succ n ih =>
    simp only [mc_loop, ih, Nat.succ_mul]
    omega

/-- The Heston Monte Carlo loop depends only on the n·(2·num_steps) draws it consumes. -/
lemma mc_loop_congr (Sq : ℚ → ℚ) (p : HestonParams) (o : OptionData) (m : MarketData)
    (num_steps : ℕ) (s s' : ℕ → ℚ) (c0 : ℕ) :
    ∀ n, (∀ j, j < n * (2 * num_steps) → s (c0 + j) = s' (c0 + j)) →
      mc_loop Sq p o m num_steps s c0 n = mc_loop Sq p o m num_steps s' c0 n := by
  intro n
  induction n with
  | zero => intro _; rfl
  | succ n ih =>
    intro h
    have hmul : (n + 1) * (2 * num_steps) = n * (2 * num_steps) + 2 * num_steps :=
      Nat.succ_mul n (2 * num_steps)
    have hprev := ih fun j hj => h j (by omega)
    simp only [mc_loop, hprev]
    rw [heston_path_list_congr Sq p m.spot p.v0 m o.expiry num_steps s s'
      (mc_loop Sq p o m num_steps s' c0 n).2 ?_]
    intro j hj
    rw [mc_loop_cursor, Nat.add_assoc]
    exact h (n * (2 * num_steps) + j) (by omega)

end HestonModel

/-- C6: each Euler step of HestonModel::simulate_path floors the previous variance at 0
before computing drift and diffusion, updates
v[i+1] = v⁺ + kappa(theta - v⁺)dt + sigma·sqrt(v⁺·dt)·Z2 and
S[i+1] = S[i] + (r-q)S[i]dt + S[i]·sqrt(v⁺·dt)·Z1, where Z1 = stream(c+2i) and
Z2 = rho·Z1 + sqrt(1-rho²)·stream(c+2i+1) are a correlated pair drawn freshly at step i
(cursor positions 2i, 2i+1 of the path's draws); across paths, the price_monte_carlo
loop advances the cursor by 2·num_steps per path, so no draw is ever reused. -/
theorem heston_euler_full_truncation_step (Sq : ℚ → ℚ) (p : HestonModel.HestonParams)
    (S0 v0 : ℚ) (m : MarketData) (T : ℚ) (ns : ℕ) (s : ℕ → ℚ) (c : ℕ) (i : ℕ)
    (h1 : i < ns) :
    ((HestonModel.simulate_path Sq p S0 v0 m T ns s c).2.getD (i + 1) 0 =
      max ((HestonModel.simulate_path Sq p S0 v0 m T ns s c).2.getD i 0) 0 +
        (p.kappa * (p.theta - max ((HestonModel.simulate_path Sq p S0 v0 m T ns s c).2.getD i 0) 0)
            * (T / (ns : ℚ)) +
          p.sigma * Sq (max ((HestonModel.simulate_path Sq p S0 v0 m T ns s c).2.getD i 0) 0
            * (T / (ns : ℚ))) *
          (p.rho * s (c + 2 * i) + Sq (1 - p.rho * p.rho) * s (c + 2 * i + 1)))) ∧
    ((HestonModel.simulate_path Sq p S0 v0 m T ns s c).1.getD (i + 1) 0 =
      (HestonModel.simulate_path Sq p S0 v0 m T ns s c).1.getD i 0 +
        ((m.rate - m.dividend) * ((HestonModel.simulate_path Sq p S0 v0 m T ns s c).1.getD i 0)
            * (T / (ns : ℚ)) +
          ((HestonModel.simulate_path Sq p S0 v0 m T ns s c).1.getD i 0) *
            Sq (max ((HestonModel.simulate_path Sq p S0 v0 m T ns s c).2.getD i 0) 0
              * (T / (ns : ℚ))) * s (c + 2 * i))) ∧
    (∀ (o : OptionData) (c0 n : ℕ),
      (HestonModel.mc_loop Sq p o m ns s c0 n).2 = c0 + n * (2 * ns)) := by
  have hS : ∀ k, k < ns + 1 →
      (HestonModel.simulate_path Sq p S0 v0 m T ns s c).1.getD k 0
        = (HestonModel.path_values Sq p S0 v0 m (T / (ns : ℚ)) s c k).1 := by
    intro k hk
    simp only [HestonModel.simulate_path]
    rw [getD_range_map _ _ _ hk]
  have hv : ∀ k, k < ns + 1 →
      (HestonModel.simulate_path Sq p S0 v0 m T ns s c).2.getD k 0
        = (HestonModel.path_values Sq p S0 v0 m (T / (ns : ℚ)) s c k).2 := by
    intro k hk
    simp only [HestonModel.simulate_path]
    rw [getD_range_map _ _ _ hk]
  refine ⟨?_, ?_, fun o c0 n => HestonModel.mc_loop_cursor Sq p o m ns s c0 n⟩
  · rw [hv (i + 1) (by omega), hv i (by omega)]
    simp only [HestonModel.path_values, RandomGenerator.correlated_normals]
  · rw [hS (i + 1) (by omega), hS i (by omega), hv i (by omega)]
    simp only [HestonModel.path_values, RandomGenerator.correlated_normals]

/-- Witness for C6 at a concrete input: one step, all draws equal 1, Sq = id. -/
theorem heston_euler_full_truncation_step_witness :
    (0 : ℕ) < 1 ∧
    ((HestonModel.simulate_path id ⟨1, 1, 1, 1, 1⟩ 1 1 crrWitMkt 1 1 (fun _ => 1) 0).2.getD 1 0 =
      max ((HestonModel.simulate_path id ⟨1, 1, 1, 1, 1⟩ 1 1 crrWitMkt 1 1 (fun _ => 1) 0).2.getD 0 0) 0 +
        (1 * (1 - max ((HestonModel.simulate_path id ⟨1, 1, 1, 1, 1⟩ 1 1 crrWitMkt 1 1 (fun _ => 1) 0).2.getD 0 0) 0)
            * (1 / ((1 : ℕ) : ℚ)) +
          1 * id (max ((HestonModel.simulate_path id ⟨1, 1, 1, 1, 1⟩ 1 1 crrWitMkt 1 1 (fun _ => 1) 0).2.getD 0 0) 0
            * (1 / ((1 : ℕ) : ℚ))) *
          (1 * (fun _ => (1:ℚ)) (0 + 2 * 0) + id (1 - 1 * 1) * (fun _ => (1:ℚ)) (0 + 2 * 0 + 1)))) :=
  ⟨Nat.zero_lt_one,
    (heston_euler_full_truncation_step id ⟨1, 1, 1, 1, 1⟩ 1 1 crrWitMkt 1 1
      (fun _ => 1) 0 0 Nat.zero_lt_one).1⟩

/-- C9: HestonModel::price_monte_carlo constructs a fresh generator with the fixed
literal seed 12345 on every invocation. (1) Viewed as a state transformer over any
engine random-generator state, the result is independent of that state, and (2) the
state is left untouched — so repeated calls on the same instance, and calls on instances
carrying different intended seeds, return the identical value. (3) Only the stream
belonging to seed 12345 — and only its first num_paths·(2·num_steps) draws — can
influence the price: global seed→stream maps agreeing there give equal prices even if
they differ at every other seed. -/
theorem heston_mc_fixed_seed_12345 (Ex Sq : ℚ → ℚ) (p : HestonModel.HestonParams)
    (o : OptionData) (m : MarketData) (np ns : ℕ) :
    (∀ (streamOf : ℕ → ℕ → ℚ) (st st' : ℕ × ℕ),
      (HestonModel.price_monte_carlo_call Ex Sq streamOf p o m np ns st).1
        = (HestonModel.price_monte_carlo_call Ex Sq streamOf p o m np ns st').1) ∧
    (∀ (streamOf : ℕ → ℕ → ℚ) (st : ℕ × ℕ),
      (HestonModel.price_monte_carlo_call Ex Sq streamOf p o m np ns st).2 = st) ∧
    (∀ (streamOf streamOf' : ℕ → ℕ → ℚ),
      (∀ j, j < np * (2 * ns) → streamOf 12345 j = streamOf' 12345 j) →
      HestonModel.price_monte_carlo Ex Sq streamOf p o m np ns
        = HestonModel.price_monte_carlo Ex Sq streamOf' p o m np ns) := by
  refine ⟨fun _ _ _ => rfl, fun _ _ => rfl, fun s1 s2 h => ?_⟩
  simp only [HestonModel.price_monte_carlo]
  rw [HestonModel.mc_loop_congr Sq p o m ns (s1 12345) (s2 12345) 0 np
    (fun j hj => by simpa using h j hj)]

/-- Witness for C9: two seed→stream maps that agree at seed 12345 but differ at every
other seed give the same Heston Monte Carlo price. -/
theorem heston_mc_fixed_seed_witness :
    HestonModel.price_monte_carlo shiftExp id (fun seed _ => if seed = 12345 then 1 else 5)
      ⟨1, 1, 1, 1, 1⟩ crrWitOpt crrWitMkt 1 1
    = HestonModel.price_monte_carlo shiftExp id (fun seed _ => if seed = 12345 then 1 else 7)
      ⟨1, 1, 1, 1, 1⟩ crrWitOpt crrWitMkt 1 1 :=
  (heston_mc_fixed_seed_12345 shiftExp id ⟨1, 1, 1, 1, 1⟩ crrWitOpt crrWitMkt 1 1).2.2 _ _
    (fun _ _ => rfl)

namespace Cx

/-- std::complex<double> modelled as a pair of rationals: addition. -/
def add (a b : ℚ × ℚ) : ℚ × ℚ := (a.1 + b.1, a.2 + b.2)

/-- Complex subtraction. -/
def sub (a b : ℚ × ℚ) : ℚ × ℚ := (a.1 - b.1, a.2 - b.2)

/-- Complex multiplication. -/
def mul (a b : ℚ × ℚ) : ℚ × ℚ := (a.1 * b.1 - a.2 * b.2, a.1 * b.2 + a.2 * b.1)

/-- Complex division. -/
def div (a b : ℚ × ℚ) : ℚ × ℚ :=
  let den := b.1 * b.1 + b.2 * b.2
  ((a.1 * b.1 + a.2 * b.2) / den, (a.2 * b.1 - a.1 * b.2) / den)

/-- Embed a real (double) into the complex plane. -/
def ofReal (x : ℚ) : ℚ × ℚ := (x, 0)

/-- Scale a complex number by a real. -/
def smul (x : ℚ) (a : ℚ × ℚ) : ℚ × ℚ := (x * a.1, x * a.2)

end Cx

namespace HestonModel

/-- HestonModel::characteristic_function (heston.cpp:35-65), over the pair model of
std::complex with the complex transcendentals `cexp`, `clog`, `csqrt` and the real log
`rlog` passed as parameters. `i` is the imaginary unit. -/
def characteristic_function (cexp clog csqrt : ℚ × ℚ → ℚ × ℚ) (rlog : ℚ → ℚ)
    (p : HestonParams) (u : ℚ × ℚ) (S v T r q : ℚ) : ℚ × ℚ :=
  let i : ℚ × ℚ := (0, 1)
  let kappa := p.kappa
  let theta := p.theta
  let sigma := p.sigma
  let rho := p.rho
  let rsui := Cx.smul (rho * sigma) (Cx.mul u i)
  let d := csqrt (Cx.add (Cx.mul (Cx.sub rsui (Cx.ofReal kappa)) (Cx.sub rsui (Cx.ofReal kappa)))
    (Cx.smul (sigma * sigma) (Cx.add (Cx.mul u i) (Cx.mul u u))))
  let g := Cx.div (Cx.sub (Cx.sub (Cx.ofReal kappa) rsui) d)
    (Cx.add (Cx.sub (Cx.ofReal kappa) rsui) d)
  let C := Cx.add (Cx.smul ((r - q) * T) (Cx.mul u i))
    (Cx.smul (kappa * theta / (sigma * sigma))
      (Cx.sub (Cx.smul T (Cx.sub (Cx.sub (Cx.ofReal kappa) rsui) d))
        (Cx.smul 2 (clog (Cx.div
          (Cx.sub (Cx.ofReal 1) (Cx.mul g (cexp (Cx.smul (-T) d))))
          (Cx.sub (Cx.ofReal 1) g))))))
  let D := Cx.mul (Cx.div (Cx.sub (Cx.sub (Cx.ofReal kappa) rsui) d) (Cx.ofReal (sigma * sigma)))
    (Cx.div (Cx.sub (Cx.ofReal 1) (cexp (Cx.smul (-T) d)))
      (Cx.sub (Cx.ofReal 1) (Cx.mul g (cexp (Cx.smul (-T) d)))))
  cexp (Cx.add (Cx.add C (Cx.smul v D)) (Cx.smul (rlog S) (Cx.mul i u)))

/-- HestonModel::heston_integrand (heston.cpp:67-83): for j = 1 the argument is phi - i,
else phi; returns the real part of exp(-i·phi·log K)·f / (i·phi). -/
def heston_integrand (cexp clog csqrt : ℚ × ℚ → ℚ × ℚ) (rlog : ℚ → ℚ) (p : HestonParams)
    (phi S K T r q : ℚ) (j : ℕ) : ℚ :=
  let i : ℚ × ℚ := (0, 1)
  let u : ℚ × ℚ := if j = 1 then Cx.sub (Cx.ofReal phi) i else Cx.ofReal phi
  let f := characteristic_function cexp clog csqrt rlog p u S p.v0 T r q
  let integrand := Cx.div (Cx.mul (cexp (Cx.smul (-(phi * rlog K)) i)) f)
    (Cx.smul phi i)
  integrand.1

/-- HestonModel::integrate (heston.cpp:85-98): trapezoid-style sum of the integrand at
phi = i·dx for i = 1..999, dx = 100/1000. -/
def integrate (cexp clog csqrt : ℚ × ℚ → ℚ × ℚ) (rlog : ℚ → ℚ) (p : HestonParams)
    (S K T r q : ℚ) (j : ℕ) : ℚ :=
  let n_points : ℕ := 1000
  let upper_limit : ℚ := 100
  let dx := upper_limit / (n_points : ℚ)
  let sum := ((List.range n_points).drop 1).foldl
    (fun acc i => acc + heston_integrand cexp clog csqrt rlog p ((i : ℚ) * dx) S K T r q j) 0
  sum * dx

/-- HestonModel::price_semi_analytical (heston.cpp:17-33): P1, P2 from the Fourier
integrals, call price S·e^{-qT}·P1 - K·e^{-rT}·P2, put by parity. `pi` stands for M_PI. -/
def price_semi_analytical (cexp clog csqrt : ℚ × ℚ → ℚ × ℚ) (rlog : ℚ → ℚ) (Ex : ℚ → ℚ)
    (pi : ℚ) (p : HestonParams) (o : OptionData) (m : MarketData) : ℚ :=
  let S := m.spot
  let K := o.strike
  let T := o.expiry
  let r := m.rate
  let q := m.dividend
  let P1 := 1/2 + integrate cexp clog csqrt rlog p S K T r q 1 / pi
  let P2 := 1/2 + integrate cexp clog csqrt rlog p S K T r q 2 / pi
  if o.type = OptionType.CALL then
    S * Ex (-(q * T)) * P1 - K * Ex (-(r * T)) * P2
  else
    K * Ex (-(r * T)) * (1 - P2) - S * Ex (-(q * T)) * (1 - P1)

/-- HestonModel::price (heston.cpp:8-15): the style guard runs first; European options
are priced semi-analytically. -/
def price (cexp clog csqrt : ℚ × ℚ → ℚ × ℚ) (rlog : ℚ → ℚ) (Ex : ℚ → ℚ) (pi : ℚ)
    (p : HestonParams) (o : OptionData) (m : MarketData) : Except String ℚ :=
  if o.style ≠ OptionStyle.EUROPEAN then
    Except.error "Heston model currently only supports European options"
  else
    Except.ok (price_semi_analytical cexp clog csqrt rlog Ex pi p o m)

end HestonModel

/-- The pivot search of math::solve_linear_system (src/src/math/matrix.cpp:17-25): the
row k ∈ [i+1, n) with the largest |A(k,i)|, starting from max_row = i, updating only on
strict improvement. -/
def pivot_row (A : List (List ℚ)) (i n : ℕ) : ℕ :=
  (List.range (n - (i + 1))).foldl
    (fun mr d =>
      let k := i + 1 + d
      if |(A.getD k []).getD i 0| > |(A.getD mr []).getD i 0| then k else mr) i

/-- The row swap of matrix.cpp:27-33: entries of rows i and max_row are exchanged only
at column positions k ≥ i, as in the source. -/
def swap_tail (row1 row2 : List ℚ) (i : ℕ) : List ℚ × List ℚ :=
  ((List.range row1.length).map fun j => if i ≤ j then row2.getD j 0 else row1.getD j 0,
   (List.range row2.length).map fun j => if i ≤ j then row1.getD j 0 else row2.getD j 0)

/-- One stage of the Gaussian elimination (matrix.cpp:16-48) for pivot column i:
partial pivoting, the 1e-10 singularity guard, then elimination of column i from the
rows below, touching only columns j ≥ i. -/
def elim_stage (i : ℕ) (Ab : List (List ℚ) × List ℚ) :
    Except String (List (List ℚ) × List ℚ) :=
  let A := Ab.1
  let b := Ab.2
  let n := b.length
  let max_row := pivot_row A i n
  let A1 :=
    if max_row = i then A
    else
      let rows := swap_tail (A.getD i []) (A.getD max_row []) i
      (A.set i rows.1).set max_row rows.2
  let b1 :=
    if max_row = i then b
    else (b.set i (b.getD max_row 0)).set max_row (b.getD i 0)
  if |(A1.getD i []).getD i 0| < 1 / 10 ^ 10 then
    Except.error "Matrix is singular or nearly singular"
  else
    let pivot := (A1.getD i []).getD i 0
    let A2 := (List.range n).map fun k =>
      if i + 1 ≤ k then
        let factor := (A1.getD k []).getD i 0 / pivot
        (List.range (A1.getD k []).length).map fun j =>
          if i ≤ j then (A1.getD k []).getD j 0 - factor * (A1.getD i []).getD j 0
          else (A1.getD k []).getD j 0
      else A1.getD k []
    let b2 := (List.range n).map fun k =>
      if i + 1 ≤ k then b1.getD k 0 - ((A1.getD k []).getD i 0 / pivot) * b1.getD i 0
      else b1.getD k 0
    Except.ok (A2, b2)

/-- The back-substitution loop of matrix.cpp:51-60, processing rows i = n-1 down to 0
(the argument counts the rows still to process; with r+1 remaining the current row
is i = r). -/
def back_subst (A : List (List ℚ)) (b : List ℚ) (n : ℕ) : ℕ → List ℚ → List ℚ
  | 0, x => x
  | r + 1, x =>
      let i := r
      let row := A.getD i []
      let sum := ((List.range (n - (i + 1))).map fun d =>
          row.getD (i + 1 + d) 0 * x.getD (i + 1 + d) 0).sum
      back_subst A b n r (x.set i ((b.getD i 0 - sum) / row.getD i 0))

/-- math::solve_linear_system (matrix.cpp:9-61): shape guard, Gaussian elimination with
partial pivoting (failing on a near-zero pivot), then back substitution. `ncols` is the
column count of the Matrix argument. -/
def solve_linear_system (A : List (List ℚ)) (b : List ℚ) (ncols : ℕ) :
    Except String (List ℚ) :=
  let n := A.length
  if ncols ≠ n ∨ b.length ≠ n then
    Except.error "Matrix must be square and match vector size"
  else do
    let Ab ← (List.range n).foldlM (fun Ab i => elim_stage i Ab) (A, b)
    Except.ok (back_subst Ab.1 Ab.2 n n (List.replicate n 0))

namespace LSMCModel

/-- LSMCModel::Config (include/derivatives/models/lsmc.hpp). -/
structure Config where
  num_paths : ℕ
  num_timesteps : ℕ
  seed : ℕ
  use_antithetic : Bool
  polynomial_degree : ℕ
deriving DecidableEq, Repr

/-- LSMCModel::basis_functions entry i (heston.cpp:198-213): weighted Laguerre values
for i ≤ 3, then the three-term recurrence for i ≥ 4. -/
def basis_value (Ex : ℚ → ℚ) (x : ℚ) : ℕ → ℚ
  | 0 => Ex (-(x / 2))
  | 1 => Ex (-(x / 2)) * (1 - x)
  | 2 => Ex (-(x / 2)) * (1 - 2 * x + x * x / 2)
  | 3 => Ex (-(x / 2)) * (1 - 3 * x + 1.5 * x * x - x * x * x / 6)
  | n + 4 =>
      ((2 * ((n + 4 : ℕ) : ℚ) - 1 - x) * basis_value Ex x (n + 3) -
        (((n + 4 : ℕ) : ℚ) - 1) * basis_value Ex x (n + 2)) / ((n + 4 : ℕ) : ℚ)

/-- LSMCModel::basis_functions (heston.cpp:198-213). -/
def basis_functions (Ex : ℚ → ℚ) (x : ℚ) (degree : ℕ) : List ℚ :=
  (List.range (degree + 1)).map (basis_value Ex x)

/-- LSMCModel::regression (heston.cpp:215-256): input guard, design matrix of basis
values, normal equations A^T A β = A^T y solved by Gaussian elimination. -/
def regression (Ex : ℚ → ℚ) (x y : List ℚ) (degree : ℕ) : Except String (List ℚ) :=
  if x.length ≠ y.length ∨ x.isEmpty then Except.error "Invalid regression input"
  else
    let n := x.length
    let m := degree + 1
    let A := x.map fun xi => basis_functions Ex xi degree
    let ATA := (List.range m).map fun i => (List.range m).map fun j =>
      ((List.range n).map fun k => (A.getD k []).getD i 0 * (A.getD k []).getD j 0).sum
    let ATy := (List.range m).map fun i =>
      ((List.range n).map fun k => (A.getD k []).getD i 0 * y.getD k 0).sum
    solve_linear_system ATA ATy m

/-- LSMCModel::evaluate_polynomial (heston.cpp:258-265). -/
def evaluate_polynomial (Ex : ℚ → ℚ) (coeffs : List ℚ) (x : ℚ) : ℚ :=
  let basis := basis_functions Ex x (coeffs.length - 1)
  ((List.range coeffs.length).map fun i => coeffs.getD i 0 * basis.getD i 0).sum

/-- LSMCModel::generate_paths (heston.cpp:163-196): rows [0, actual_paths) are simulated
log-normal paths consuming num_timesteps draws each; under use_antithetic the rows
[actual_paths, 2·actual_paths) are COPIES of the first half (the source line is
`paths[i + actual_paths][j] = paths[i][j];  // Placeholder`); any remaining row keeps
its zero initialization. The per-step recursion is the same as the plain Monte Carlo
engine's (MonteCarloModel.path_value). -/
def generate_paths (Ex Sq : ℚ → ℚ) (cfg : Config) (S0 : ℚ) (m : MarketData) (T : ℚ)
    (stream : ℕ → ℚ) (c0 : ℕ) : List (List ℚ) :=
  let dt := T / (cfg.num_timesteps : ℚ)
  let drift := (m.rate - m.dividend - 0.5 * m.volatility * m.volatility) * dt
  let diffusion := m.volatility * Sq dt
  let actual_paths := if cfg.use_antithetic then cfg.num_paths / 2 else cfg.num_paths
  (List.range cfg.num_paths).map fun i =>
    if i < actual_paths then
      (List.range (cfg.num_timesteps + 1)).map
        (MonteCarloModel.path_value Ex S0 drift diffusion stream
          (c0 + i * cfg.num_timesteps))
    else if cfg.use_antithetic ∧ i < 2 * actual_paths then
      (List.range (cfg.num_timesteps + 1)).map
        (MonteCarloModel.path_value Ex S0 drift diffusion stream
          (c0 + (i - actual_paths) * cfg.num_timesteps))
    else List.replicate (cfg.num_timesteps + 1) 0

/-- The in-the-money path indices at time step t (heston.cpp:295-297): those with
positive immediate exercise payoff. -/
def itm_indices (o : OptionData) (paths : List (List ℚ)) (np t : ℕ) : List ℕ :=
  (List.range np).filter fun i => decide (o.payoff ((paths.getD i []).getD t 0) > 0)

/-- The discounted future realized cash flow of one path at step t (heston.cpp:300-307):
the first positive entry strictly after t, discounted back to t; 0 if none. -/
def future_cf (Ex : ℚ → ℚ) (r dt : ℚ) (cf_row : List ℚ) (t T_steps : ℕ) : ℚ :=
  match (List.range (T_steps - t)).find? (fun d => decide (cf_row.getD (t + 1 + d) 0 > 0)) with
  | some d => cf_row.getD (t + 1 + d) 0 * Ex (-(r * dt * ((d + 1 : ℕ) : ℚ)))
  | none => 0

/-- The exercise-recording pass (heston.cpp:317-331): for every in-the-money path whose
immediate exercise payoff exceeds the fitted continuation value, set cash_flows[i][t] to
the exercise value and clear all later columns of that row. -/
def apply_exercise (Ex : ℚ → ℚ) (o : OptionData) (paths : List (List ℚ))
    (coeffs : List ℚ) (idxs : List ℕ) (t : ℕ) (cf : List (List ℚ)) : List (List ℚ) :=
  (List.range cf.length).map fun i =>
    let row := cf.getD i []
    if idxs.contains i then
      let continuation_value := evaluate_polynomial Ex coeffs ((paths.getD i []).getD t 0)
      let exercise_value := o.payoff ((paths.getD i []).getD t 0)
      if exercise_value > continuation_value then
        (List.range row.length).map fun j =>
          if j = t then exercise_value else if t < j then 0 else row.getD j 0
      else row
    else row

/-- One backward-induction step of LSMCModel::price at time index t (heston.cpp:290-333):
collect the in-the-money paths; if there are at least polynomial_degree+1 of them,
regress and record exercise decisions; otherwise leave the cash-flow matrix unchanged. -/
def lsmc_step (Ex : ℚ → ℚ) (cfg : Config) (o : OptionData) (m : MarketData) (dt : ℚ)
    (paths : List (List ℚ)) (t : ℕ) (cf : List (List ℚ)) :
    Except String (List (List ℚ)) :=
  let idxs := itm_indices o paths cfg.num_paths t
  let x_itm := idxs.map fun i => (paths.getD i []).getD t 0
  let y_itm := idxs.map fun i => future_cf Ex m.rate dt (cf.getD i []) t cfg.num_timesteps
  if cfg.polynomial_degree + 1 ≤ x_itm.length then
    match regression Ex x_itm y_itm cfg.polynomial_degree with
    | Except.error e => Except.error e
    | Except.ok coeffs => Except.ok (apply_exercise Ex o paths coeffs idxs t cf)
  else
    Except.ok cf

/-- The backward loop for t = num_timesteps-1 down to 1 (heston.cpp:290): the argument
is the current time index; the loop stops before t = 0. -/
def lsmc_backward (Ex : ℚ → ℚ) (cfg : Config) (o : OptionData) (m : MarketData) (dt : ℚ)
    (paths : List (List ℚ)) : ℕ → List (List ℚ) → Except String (List (List ℚ))
  | 0, cf => Except.ok cf
  | t + 1, cf => do
      let cf' ← lsmc_step Ex cfg o m dt paths (t + 1) cf
      lsmc_backward Ex cfg o m dt paths t cf'

/-- The final averaging of LSMCModel::price (heston.cpp:336-344): each path contributes
its first positive cash flow discounted to time 0. -/
def first_cf_discounted (Ex : ℚ → ℚ) (r dt : ℚ) (row : List ℚ) (T_steps : ℕ) : ℚ :=
  match (List.range (T_steps + 1)).find? (fun t => decide (row.getD t 0 > 0)) with
  | some t => row.getD t 0 * Ex (-(r * dt * (t : ℚ)))
  | none => 0

/-- LSMCModel::price (heston.cpp:267-347): style guard, path generation, terminal
cash-flow initialization, backward-induction regression loop, final discounted average. -/
def price (Ex Sq : ℚ → ℚ) (cfg : Config) (o : OptionData) (m : MarketData)
    (stream : ℕ → ℚ) (c0 : ℕ) : Except String ℚ :=
  if o.style ≠ OptionStyle.AMERICAN then
    Except.error "LSMC is designed for American options"
  else
    let dt := o.expiry / (cfg.num_timesteps : ℚ)
    let paths := generate_paths Ex Sq cfg m.spot m o.expiry stream c0
    let cf0 := (List.range cfg.num_paths).map fun i =>
      (List.range (cfg.num_timesteps + 1)).map fun t =>
        if t = cfg.num_timesteps then o.payoff ((paths.getD i []).getD cfg.num_timesteps 0)
        else 0
    match lsmc_backward Ex cfg o m dt paths (cfg.num_timesteps - 1) cf0 with
    | Except.error e => Except.error e
    | Except.ok cf =>
        let sum := ((List.range cfg.num_paths).map fun i =>
          first_cf_discounted Ex m.rate dt (cf.getD i []) cfg.num_timesteps).sum
        Except.ok (sum / (cfg.num_paths : ℚ))

end LSMCModel

/-- C5: at any backward-induction step whose in-the-money path count is below
polynomial_degree+1, the regression is skipped: the step returns the cash-flow matrix
unchanged and no error, and the backward loop simply proceeds to the next step. -/
theorem lsmc_skips_regression_when_too_few_itm (Ex : ℚ → ℚ) (cfg : LSMCModel.Config)
    (o : OptionData) (m : MarketData) (dt : ℚ) (paths : List (List ℚ)) (t : ℕ)
    (cf : List (List ℚ))
    (h : (LSMCModel.itm_indices o paths cfg.num_paths (t + 1)).length
      < cfg.polynomial_degree + 1) :
    LSMCModel.lsmc_step Ex cfg o m dt paths (t + 1) cf = Except.ok cf ∧
    LSMCModel.lsmc_backward Ex cfg o m dt paths (t + 1) cf
      = LSMCModel.lsmc_backward Ex cfg o m dt paths t cf := by
  have hstep : LSMCModel.lsmc_step Ex cfg o m dt paths (t + 1) cf = Except.ok cf := by
    simp only [LSMCModel.lsmc_step]
    rw [if_neg]
    rw [List.length_map]
    omega
  refine ⟨hstep, ?_⟩
  simp only [LSMCModel.lsmc_backward, hstep]
  rfl

/-- Concrete witness option for the LSMC step-skip: American vanilla call, strike 1,
expiry 1. -/
def amerWitOpt : OptionData :=
  ⟨1, 1, OptionType.CALL, OptionStyle.AMERICAN, OptionKind.vanilla⟩

/-- Witness for C5: a single path that is out of the money at the step (spot = strike) is
fewer than polynomial_degree+1 = 4 in-the-money paths, so the step is a no-op. -/
theorem lsmc_skips_regression_witness :
    (LSMCModel.itm_indices amerWitOpt [[1, 1]] 1 1).length < 3 + 1 ∧
    LSMCModel.lsmc_step shiftExp ⟨1, 1, 0, false, 3⟩ amerWitOpt crrWitMkt 1 [[1, 1]] 1 [[0, 0]]
      = Except.ok [[0, 0]] := by
  have h : (LSMCModel.itm_indices amerWitOpt [[1, 1]] 1 1).length < 3 + 1 := by
    norm_num [LSMCModel.itm_indices, amerWitOpt, OptionData.payoff, OptionData.base_payoff,
      List.range_succ]
  exact ⟨h, (lsmc_skips_regression_when_too_few_itm shiftExp ⟨1, 1, 0, false, 3⟩ amerWitOpt
    crrWitMkt 1 [[1, 1]] 0 [[0, 0]] h).1⟩

/-- C4: each engine's price rejects an unsupported option style immediately — the error
is produced for every market datum, configuration and draw stream, before any
computation: plain Monte Carlo for any non-European style, LSMC for any non-American
style, and the Heston engine for any non-European style. -/
theorem unsupported_style_fails_immediately :
    (∀ (Ex Sq : ℚ → ℚ) (rootn : ℚ → ℕ → ℚ) (cfg : MonteCarloModel.MonteCarloConfig)
        (o : OptionData) (m : MarketData) (stream : ℕ → ℚ) (c0 : ℕ),
      o.style ≠ OptionStyle.EUROPEAN →
      MonteCarloModel.price Ex Sq rootn cfg o m stream c0 = Except.error
        "Basic Monte Carlo only supports European options. Use LSMC for American options.") ∧
    (∀ (Ex Sq : ℚ → ℚ) (cfg : LSMCModel.Config) (o : OptionData) (m : MarketData)
        (stream : ℕ → ℚ) (c0 : ℕ),
      o.style ≠ OptionStyle.AMERICAN →
      LSMCModel.price Ex Sq cfg o m stream c0
        = Except.error "LSMC is designed for American options") ∧
    (∀ (cexp clog csqrt : ℚ × ℚ → ℚ × ℚ) (rlog Ex : ℚ → ℚ) (pi : ℚ)
        (p : HestonModel.HestonParams) (o : OptionData) (m : MarketData),
      o.style ≠ OptionStyle.EUROPEAN →
      HestonModel.price cexp clog csqrt rlog Ex pi p o m = Except.error
        "Heston model currently only supports European options") := by
  refine ⟨fun Ex Sq rootn cfg o m stream c0 h => ?_,
    fun Ex Sq cfg o m stream c0 h => ?_,
    fun cexp clog csqrt rlog Ex pi p o m h => ?_⟩
  · simp only [MonteCarloModel.price]
    rw [if_pos h]
  · simp only [LSMCModel.price]
    rw [if_pos h]
  · simp only [HestonModel.price]
    rw [if_pos h]

/-- Witness for C4: the three guards fire at concrete unsupported-style inputs. -/
theorem unsupported_style_witness :
    MonteCarloModel.price shiftExp id (fun x _ => x) mcBugCfg amerWitOpt crrWitMkt
      (fun _ => 1) 0 = Except.error
      "Basic Monte Carlo only supports European options. Use LSMC for American options." ∧
    LSMCModel.price shiftExp id ⟨1, 1, 0, false, 3⟩ crrWitOpt crrWitMkt (fun _ => 1) 0
      = Except.error "LSMC is designed for American options" ∧
    HestonModel.price (fun z => z) (fun z => z) (fun z => z) id id 3 ⟨1, 1, 1, 1, 1⟩
      amerWitOpt crrWitMkt = Except.error
      "Heston model currently only supports European options" :=
  ⟨unsupported_style_fails_immediately.1 shiftExp id (fun x _ => x) mcBugCfg amerWitOpt
      crrWitMkt (fun _ => 1) 0 (by decide),
   unsupported_style_fails_immediately.2.1 shiftExp id ⟨1, 1, 0, false, 3⟩ crrWitOpt
      crrWitMkt (fun _ => 1) 0 (by decide),
   unsupported_style_fails_immediately.2.2 (fun z => z) (fun z => z) (fun z => z) id id 3
      ⟨1, 1, 1, 1, 1⟩ amerWitOpt crrWitMkt (by decide)⟩

namespace AsianOption

/-- AsianOption::calculate_average (include/derivatives/products/asian_option.hpp:22-39)
over the real numbers: pow(product, 1.0/n) is the exact real power x^(1/n). The
average-comparison claim is about exact real n-th roots, so this embedding of the same
source function uses ℝ (the Monte Carlo engine's ℚ view passes the root as the abstract
`rootn` parameter instead). -/
noncomputable def calculate_average_real (avgType : AveragingType)
    (observations : List ℝ) : ℝ :=
  if observations.isEmpty then 0
  else
    match avgType with
    | AveragingType.ARITHMETIC => observations.sum / (observations.length : ℝ)
    | AveragingType.GEOMETRIC =>
        observations.prod ^ ((1 : ℝ) / (observations.length : ℝ))

/-- AsianOption::payoff (asian_option.hpp:42-48) over the reals, applied to the average
price. -/
noncomputable def payoff_real (otype : OptionType) (strike average_price : ℝ) : ℝ :=
  match otype with
  | OptionType.CALL => max (average_price - strike) 0
  | OptionType.PUT => max (strike - average_price) 0

end AsianOption

/-- AM-GM for the averages computed by calculate_average: for positive observations the
geometric average is at most the arithmetic average. -/
lemma geo_avg_le_arith_avg (obs : List ℝ) (hpos : ∀ x ∈ obs, 0 < x) (hne : obs ≠ []) :
    AsianOption.calculate_average_real AveragingType.GEOMETRIC obs ≤
      AsianOption.calculate_average_real AveragingType.ARITHMETIC obs := by
  have hre : ¬ obs.isEmpty = true := by
    simpa [List.isEmpty_iff] using hne
  simp only [AsianOption.calculate_average_real, if_neg hre]
  have hlen : obs.length ≠ 0 := fun h => hne (List.length_eq_zero.mp h)
  have hn0 : (0 : ℝ) < (obs.length : ℝ) := by
    exact_mod_cast Nat.pos_of_ne_zero hlen
  have hget : ∀ i : Fin obs.length, 0 < obs.get i := fun i => hpos _ (obs.get_mem i.1 i.2)
  have hprod : obs.prod = ∏ i : Fin obs.length, obs.get i := by
    rw [← List.prod_ofFn, List.ofFn_get]
  have hsum : obs.sum = ∑ i : Fin obs.length, obs.get i := by
    rw [← List.sum_ofFn, List.ofFn_get]
  rw [hprod, hsum]
  have h1 : (∏ i : Fin obs.length, obs.get i) ^ ((1 : ℝ) / (obs.length : ℝ))
      = ∏ i : Fin obs.length, (obs.get i) ^ ((1 : ℝ) / (obs.length : ℝ)) :=
    (Real.finset_prod_rpow Finset.univ _ (fun i _ => (hget i).le) _).symm
  have hw' : ∑ _i : Fin obs.length, (1 : ℝ) / (obs.length : ℝ) = 1 := by
    rw [Finset.sum_const, Finset.card_univ, Fintype.card_fin, nsmul_eq_mul]
    field_simp
  have hamgm := Real.geom_mean_le_arith_mean_weighted Finset.univ
    (fun _ => (1 : ℝ) / (obs.length : ℝ)) (fun i => obs.get i)
    (fun i _ => by positivity) hw' (fun i _ => (hget i).le)
  rw [h1]
  calc ∏ i : Fin obs.length, (obs.get i) ^ ((1 : ℝ) / (obs.length : ℝ))
      ≤ ∑ i : Fin obs.length, ((1 : ℝ) / (obs.length : ℝ)) * obs.get i := hamgm
    _ = (∑ i : Fin obs.length, obs.get i) / (obs.length : ℝ) := by
        rw [← Finset.mul_sum]
        ring

/-- C7 (amended): for positive observations and any strike, the geometric-average payoff
is ≤ the arithmetic-average payoff for CALL options, and the inequality REVERSES for PUT
options. -/
theorem asian_geo_vs_arith_payoff (obs : List ℝ) (strike : ℝ)
    (hpos : ∀ x ∈ obs, 0 < x) (hne : obs ≠ []) :
    AsianOption.payoff_real OptionType.CALL strike
        (AsianOption.calculate_average_real AveragingType.GEOMETRIC obs)
      ≤ AsianOption.payoff_real OptionType.CALL strike
        (AsianOption.calculate_average_real AveragingType.ARITHMETIC obs) ∧
    AsianOption.payoff_real OptionType.PUT strike
        (AsianOption.calculate_average_real AveragingType.ARITHMETIC obs)
      ≤ AsianOption.payoff_real OptionType.PUT strike
        (AsianOption.calculate_average_real AveragingType.GEOMETRIC obs) := by
  have h := geo_avg_le_arith_avg obs hpos hne
  simp only [AsianOption.payoff_real]
  constructor
  · exact max_le_max (by linarith) le_rfl
  · exact max_le_max (by linarith) le_rfl

/-- The geometric average of the observations 1, 4 is exactly 2. -/
lemma geo_avg_one_four : AsianOption.calculate_average_real AveragingType.GEOMETRIC
    [1, 4] = 2 := by
  simp only [AsianOption.calculate_average_real]
  norm_num
  rw [show ((1 : ℝ)/2) = ((2 : ℕ) : ℝ)⁻¹ by norm_num,
    show (4 : ℝ) = 2 ^ (2 : ℕ) by norm_num,
    Real.pow_rpow_inv_natCast (by norm_num) (by norm_num)]

/-- C7 counterexample: for a PUT with strike 3 on the observations 1, 4 the
geometric-average payoff (1) exceeds the arithmetic-average payoff (1/2), so the claim's
inequality fails for puts. -/
theorem asian_put_geo_payoff_exceeds_arith :
    ¬ (AsianOption.payoff_real OptionType.PUT 3
        (AsianOption.calculate_average_real AveragingType.GEOMETRIC [1, 4])
      ≤ AsianOption.payoff_real OptionType.PUT 3
        (AsianOption.calculate_average_real AveragingType.ARITHMETIC [1, 4])) := by
  have harith : AsianOption.calculate_average_real AveragingType.ARITHMETIC [1, 4]
      = 5/2 := by
    simp only [AsianOption.calculate_average_real]
    norm_num
  rw [geo_avg_one_four, harith]
  simp only [AsianOption.payoff_real]
  rw [max_eq_left (by norm_num : (0:ℝ) ≤ 3 - 2), max_eq_left (by norm_num : (0:ℝ) ≤ 3 - 5/2)]
  norm_num

/-- Witness for the C7 amended theorem at the observations 1, 4 with strike 3. -/
theorem asian_geo_vs_arith_payoff_witness :
    (∀ x ∈ [(1 : ℝ), 4], 0 < x) ∧ ([(1 : ℝ), 4] ≠ []) ∧
    AsianOption.payoff_real OptionType.CALL 3
        (AsianOption.calculate_average_real AveragingType.GEOMETRIC [1, 4])
      ≤ AsianOption.payoff_real OptionType.CALL 3
        (AsianOption.calculate_average_real AveragingType.ARITHMETIC [1, 4]) :=
  ⟨by
    intro x hx
    simp only [List.mem_cons, List.not_mem_nil, or_false] at hx
    rcases hx with rfl | rfl <;> norm_num,
   by simp,
   (asian_geo_vs_arith_payoff [1, 4] 3
      (by
        intro x hx
        simp only [List.mem_cons, List.not_mem_nil, or_false] at hx
        rcases hx with rfl | rfl <;> norm_num)
      (by simp)).1⟩

/-- Greeks record (include/derivatives/core/greeks.hpp). -/
structure Greeks where
  delta : ℚ
  gamma : ℚ
  vega : ℚ
  theta : ℚ
  rho : ℚ
deriving DecidableEq, Repr

/-- The option the theta bump of PricingModel::numerical_greeks constructs
(pricing_model.hpp:50-51): `Option theta_option(option.strike(), option.expiry() -
time_bump, option.type(), option.style())` — a BASE-CLASS Option built from only the
four base fields, i.e. a plain vanilla contract; any derived-product data is lost. -/
def theta_option (o : OptionData) (time_bump : ℚ) : OptionData :=
  ⟨o.strike, o.expiry - time_bump, o.type, o.style, OptionKind.vanilla⟩

/-- PricingModel::numerical_greeks (include/derivatives/models/pricing_model.hpp:23-62).
`P` is the engine's own virtual `price`; the bumps default to spot ±1%, vol +0.001,
rate +0.0001 and one day of time in the source and are passed explicitly here. -/
def numerical_greeks (P : OptionData → MarketData → ℚ) (o : OptionData) (m : MarketData)
    (spot_bump vol_bump rate_bump time_bump : ℚ) : Greeks :=
  let base_price := P o m
  let spot_up : MarketData := ⟨m.spot * (1 + spot_bump), m.rate, m.volatility, m.dividend⟩
  let spot_down : MarketData := ⟨m.spot * (1 - spot_bump), m.rate, m.volatility, m.dividend⟩
  let price_up := P o spot_up
  let price_down := P o spot_down
  let delta := (price_up - price_down) / (2 * m.spot * spot_bump)
  let gamma := (price_up - 2 * base_price + price_down) / (m.spot * spot_bump) ^ 2
  let vol_up : MarketData := ⟨m.spot, m.rate, m.volatility + vol_bump, m.dividend⟩
  let vega_price := P o vol_up
  let vega := (vega_price - base_price) / vol_bump
  let t_opt := theta_option o time_bump
  let theta_price := P t_opt m
  let theta := (theta_price - base_price) / time_bump
  let rate_up : MarketData := ⟨m.spot, m.rate + rate_bump, m.volatility, m.dividend⟩
  let rho_price := P o rate_up
  let rho := (rho_price - base_price) / rate_bump
  ⟨delta, gamma, vega, theta, rho⟩

/-- C10: the theta finite difference of the default Greeks reprices the base-class
vanilla option built from strike, expiry - time_bump, type and style — its product kind
is always vanilla, so for any derived product (Asian, barrier, digital) it is a
DIFFERENT option — while delta, gamma, vega and rho reprice the original option `o`
under bumped market data. -/
theorem numerical_greeks_theta_reprices_vanilla (P : OptionData → MarketData → ℚ)
    (o : OptionData) (m : MarketData) (sb vb rb tb : ℚ) :
    (numerical_greeks P o m sb vb rb tb).theta
      = (P ⟨o.strike, o.expiry - tb, o.type, o.style, OptionKind.vanilla⟩ m - P o m) / tb ∧
    (theta_option o tb).kind = OptionKind.vanilla ∧
    (o.kind ≠ OptionKind.vanilla → theta_option o tb ≠ o) ∧
    (numerical_greeks P o m sb vb rb tb).delta
      = (P o ⟨m.spot * (1 + sb), m.rate, m.volatility, m.dividend⟩
        - P o ⟨m.spot * (1 - sb), m.rate, m.volatility, m.dividend⟩) / (2 * m.spot * sb) ∧
    (numerical_greeks P o m sb vb rb tb).gamma
      = (P o ⟨m.spot * (1 + sb), m.rate, m.volatility, m.dividend⟩ - 2 * P o m
        + P o ⟨m.spot * (1 - sb), m.rate, m.volatility, m.dividend⟩) / (m.spot * sb) ^ 2 ∧
    (numerical_greeks P o m sb vb rb tb).vega
      = (P o ⟨m.spot, m.rate, m.volatility + vb, m.dividend⟩ - P o m) / vb ∧
    (numerical_greeks P o m sb vb rb tb).rho
      = (P o ⟨m.spot, m.rate + rb, m.volatility, m.dividend⟩ - P o m) / rb := by
  refine ⟨rfl, rfl, fun hk heq => ?_, rfl, rfl, rfl, rfl⟩
  exact hk (congrArg OptionData.kind heq).symm

/-- A concrete Asian option: arithmetic averaging, 12 observations, call, strike 1,
expiry 1. -/
def asianWitOpt : OptionData :=
  ⟨1, 1, OptionType.CALL, OptionStyle.EUROPEAN,
    OptionKind.asian AveragingType.ARITHMETIC 12⟩

/-- Witness for C10 at a concrete Asian option and price function: the theta-bump option
differs from the original product. -/
theorem numerical_greeks_theta_witness :
    asianWitOpt.kind ≠ OptionKind.vanilla ∧
    theta_option asianWitOpt (1/365) ≠ asianWitOpt ∧
    (numerical_greeks (fun o' m' => o'.payoff m'.spot) asianWitOpt crrWitMkt
        (1/100) (1/1000) (1/10000) (1/365)).theta
      = ((fun (o' : OptionData) (m' : MarketData) => o'.payoff m'.spot)
          ⟨asianWitOpt.strike, asianWitOpt.expiry - 1/365, asianWitOpt.type,
            asianWitOpt.style, OptionKind.vanilla⟩ crrWitMkt
        - (fun (o' : OptionData) (m' : MarketData) => o'.payoff m'.spot)
            asianWitOpt crrWitMkt) / (1/365) :=
  ⟨by decide,
   (numerical_greeks_theta_reprices_vanilla (fun o' m' => o'.payoff m'.spot) asianWitOpt
      crrWitMkt (1/100) (1/1000) (1/10000) (1/365)).2.2.1 (by decide),
   (numerical_greeks_theta_reprices_vanilla (fun o' m' => o'.payoff m'.spot) asianWitOpt
      crrWitMkt (1/100) (1/1000) (1/10000) (1/365)).1⟩

namespace LSMCModel

/-- The number of draws LSMCModel::price consumes from the generator:
generate_paths simulates actual_paths = (num_paths/2 under antithetic, else num_paths)
paths of num_timesteps draws each; the antithetic rows are copies and the regression
consumes no draws. -/
def draws_used (cfg : Config) : ℕ :=
  (if cfg.use_antithetic then cfg.num_paths / 2 else cfg.num_paths) * cfg.num_timesteps

/-- generate_paths depends only on the draws_used-long prefix of the stream starting at
its cursor. -/
lemma generate_paths_congr (Ex Sq : ℚ → ℚ) (cfg : Config) (S0 : ℚ) (m : MarketData)
    (T : ℚ) (s s' : ℕ → ℚ) (c0 : ℕ)
    (h : ∀ j, j < draws_used cfg → s (c0 + j) = s' (c0 + j)) :
    generate_paths Ex Sq cfg S0 m T s c0 = generate_paths Ex Sq cfg S0 m T s' c0 := by
  simp only [generate_paths]
  refine List.map_congr_left fun i hi => ?_
  by_cases h1 : i < if cfg.use_antithetic then cfg.num_paths / 2 else cfg.num_paths
  · rw [if_pos h1, if_pos h1]
    refine List.map_congr_left fun k hk => ?_
    have hk' : k < cfg.num_timesteps + 1 := List.mem_range.mp hk
    refine MonteCarloModel.path_value_congr Ex S0 _ _ s s' _ k fun j hj => ?_
    have e1 : (i + 1) * cfg.num_timesteps = i * cfg.num_timesteps + cfg.num_timesteps :=
      Nat.succ_mul i cfg.num_timesteps
    have e2 : (i + 1) * cfg.num_timesteps ≤
        (if cfg.use_antithetic then cfg.num_paths / 2 else cfg.num_paths)
          * cfg.num_timesteps :=
      Nat.mul_le_mul_right cfg.num_timesteps (by omega)
    rw [Nat.add_assoc]
    refine h (i * cfg.num_timesteps + j) ?_
    simp only [draws_used]
    omega
  · rw [if_neg h1, if_neg h1]
    by_cases h2 : cfg.use_antithetic
        ∧ i < 2 * (if cfg.use_antithetic then cfg.num_paths / 2 else cfg.num_paths)
    · rw [if_pos h2, if_pos h2]
      refine List.map_congr_left fun k hk => ?_
      have hk' : k < cfg.num_timesteps + 1 := List.mem_range.mp hk
      refine MonteCarloModel.path_value_congr Ex S0 _ _ s s' _ k fun j hj => ?_
      have e1 : (i - (if cfg.use_antithetic then cfg.num_paths / 2 else cfg.num_paths) + 1)
            * cfg.num_timesteps
          = (i - (if cfg.use_antithetic then cfg.num_paths / 2 else cfg.num_paths))
              * cfg.num_timesteps + cfg.num_timesteps :=
        Nat.succ_mul _ cfg.num_timesteps
      have e2 : (i - (if cfg.use_antithetic then cfg.num_paths / 2 else cfg.num_paths) + 1)
            * cfg.num_timesteps
          ≤ (if cfg.use_antithetic then cfg.num_paths / 2 else cfg.num_paths)
              * cfg.num_timesteps := by
        refine Nat.mul_le_mul_right cfg.num_timesteps ?_
        omega
      rw [Nat.add_assoc]
      refine h ((i - (if cfg.use_antithetic then cfg.num_paths / 2 else cfg.num_paths))
        * cfg.num_timesteps + j) ?_
      simp only [draws_used]
      omega
    · rw [if_neg h2, if_neg h2]

/-- LSMCModel::price depends only on the draws_used-long prefix of the stream: all
randomness enters through generate_paths. -/
lemma price_prefix_congr (Ex Sq : ℚ → ℚ) (cfg : Config) (o : OptionData) (m : MarketData)
    (s s' : ℕ → ℚ) (c0 : ℕ)
    (h : ∀ j, j < draws_used cfg → s (c0 + j) = s' (c0 + j)) :
    price Ex Sq cfg o m s c0 = price Ex Sq cfg o m s' c0 := by
  by_cases hs : o.style ≠ OptionStyle.AMERICAN
  · simp only [price, if_pos hs]
  · simp only [price, if_neg hs]
    rw [generate_paths_congr Ex Sq cfg m.spot m o.expiry s s' c0 h]

end LSMCModel

namespace HestonModel

/-- HestonModel::price_monte_carlo freshly seeds its generator with 12345, so its price
depends only on the num_paths·(2·num_steps) draws of that seed's stream. -/
lemma price_monte_carlo_prefix_congr (Ex Sq : ℚ → ℚ) (p : HestonParams) (o : OptionData)
    (m : MarketData) (np ns : ℕ) (streamOf streamOf' : ℕ → ℕ → ℚ)
    (h : ∀ j, j < np * (2 * ns) → streamOf 12345 j = streamOf' 12345 j) :
    price_monte_carlo Ex Sq streamOf p o m np ns
      = price_monte_carlo Ex Sq streamOf' p o m np ns := by
  simp only [price_monte_carlo]
  rw [mc_loop_congr Sq p o m ns (streamOf 12345) (streamOf' 12345) 0 np
    (fun j hj => by simpa using h j hj)]

end HestonModel

/-- C8: every seeded engine's price is a deterministic function of the draw stream its
seed determines — each reads only a prefix of determined length, so identical seed and
configuration give bit-identical prices from freshly constructed engines. Conjunct 1:
the plain Monte Carlo engine (all product kinds, path/step counts and antithetic flag in
its config). Conjunct 2: the LSMC engine (path/step counts, antithetic flag and
polynomial degree in its config). Conjunct 3: the Heston Monte Carlo pricer (fresh
generator, literal seed 12345). The lattice, Black-Scholes and Heston semi-analytical
engines consume no random draws at all — their embedded prices take no stream argument —
so same-configuration determinism holds for them by construction. -/
theorem engine_price_deterministic_given_seed_stream :
    (∀ (Ex Sq : ℚ → ℚ) (rootn : ℚ → ℕ → ℚ) (cfg : MonteCarloModel.MonteCarloConfig)
        (o : OptionData) (m : MarketData) (s s' : ℕ → ℚ) (c0 : ℕ),
      (∀ j, j < MonteCarloModel.draws_used cfg o → s (c0 + j) = s' (c0 + j)) →
      MonteCarloModel.price Ex Sq rootn cfg o m s c0
        = MonteCarloModel.price Ex Sq rootn cfg o m s' c0) ∧
    (∀ (Ex Sq : ℚ → ℚ) (cfg : LSMCModel.Config) (o : OptionData) (m : MarketData)
        (s s' : ℕ → ℚ) (c0 : ℕ),
      (∀ j, j < LSMCModel.draws_used cfg → s (c0 + j) = s' (c0 + j)) →
      LSMCModel.price Ex Sq cfg o m s c0 = LSMCModel.price Ex Sq cfg o m s' c0) ∧
    (∀ (Ex Sq : ℚ → ℚ) (p : HestonModel.HestonParams) (o : OptionData) (m : MarketData)
        (np ns : ℕ) (streamOf streamOf' : ℕ → ℕ → ℚ),
      (∀ j, j < np * (2 * ns) → streamOf 12345 j = streamOf' 12345 j) →
      HestonModel.price_monte_carlo Ex Sq streamOf p o m np ns
        = HestonModel.price_monte_carlo Ex Sq streamOf' p o m np ns) :=
  ⟨fun Ex Sq rootn cfg o m s s' c0 h =>
      mc_price_prefix_congr Ex Sq rootn cfg o m s s' c0 h,
   fun Ex Sq cfg o m s s' c0 h =>
      LSMCModel.price_prefix_congr Ex Sq cfg o m s s' c0 h,
   fun Ex Sq p o m np ns streamOf streamOf' h =>
      HestonModel.price_monte_carlo_prefix_congr Ex Sq p o m np ns streamOf streamOf' h⟩

/-- Witness for C8: concrete streams that agree on the consumed prefix but differ beyond
it give identical prices from the plain Monte Carlo engine and from the LSMC engine. -/
theorem engine_price_deterministic_witness :
    MonteCarloModel.price shiftExp id (fun x _ => x) ⟨2, 1, 0, false, false⟩ crrWitOpt
        crrWitMkt (fun i => if i < 2 then 1 else 5) 0
      = MonteCarloModel.price shiftExp id (fun x _ => x) ⟨2, 1, 0, false, false⟩ crrWitOpt
        crrWitMkt (fun i => if i < 2 then 1 else 7) 0 ∧
    LSMCModel.price shiftExp id ⟨1, 1, 0, false, 3⟩ amerWitOpt crrWitMkt
        (fun i => if i < 1 then 1 else 5) 0
      = LSMCModel.price shiftExp id ⟨1, 1, 0, false, 3⟩ amerWitOpt crrWitMkt
        (fun i => if i < 1 then 1 else 7) 0 :=
  ⟨engine_price_deterministic_given_seed_stream.1 shiftExp id (fun x _ => x)
      ⟨2, 1, 0, false, false⟩ crrWitOpt crrWitMkt _ _ 0
      (fun j hj => by
        have hj2 : j < 2 := by
          simpa [MonteCarloModel.draws_used, crrWitOpt] using hj
        simp only [Nat.zero_add]
        rw [if_pos hj2, if_pos hj2]),
   engine_price_deterministic_given_seed_stream.2.1 shiftExp id
      ⟨1, 1, 0, false, 3⟩ amerWitOpt crrWitMkt _ _ 0
      (fun j hj => by
        have hj1 : j < 1 := by
          simpa [LSMCModel.draws_used] using hj
        simp only [Nat.zero_add]
        rw [if_pos hj1, if_pos hj1])⟩

end DerivPricing
